import Mathlib

/-!
Verification of the `AnalyticalJerkConstrainedSmoother` of the
`motion_velocity_smoother` package, together with one initialization fact of
the `velocity_controller`, against their natural-language specification.

The C++ source is shallowly embedded over `ℚ`:

* `twist.linear.x` / `accel.linear.x` of a trajectory point become the `vel` /
  `acc` fields of `TrajectoryPoint`; `twist.angular.z` / `accel.angular.z`
  become `velAngZ` / `accAngZ`; the pose's planar position becomes `pos`.
* `double` arithmetic becomes exact `ℚ` arithmetic.
* C++ functions that return `bool` and write through an output reference
  become functions returning the written value, with `Option` where `false`
  (or a thrown `std::out_of_range` from `std::vector::at`) must be modelled.
* External geometry / planning utilities that are not part of the sources
  under verification (`autoware_utils::calcDistance2d`, `tf2` pose
  interpolation, `trajectory_utils` interpolation and curvature estimation,
  `analytical_velocity_planning_utils` stop-profile kinematics) are modelled
  from the specification as explicit function parameters, so every theorem
  states exactly which behaviour of the missing code it relies on.
-/

namespace AnalyticalJerkConstrainedSmoother

/-- Planar position of a trajectory point (`pose.position.x`, `pose.position.y`).
The `z` coordinate and the orientation quaternion are only read by the external
`tf2` / `autoware_utils` helpers, which are modelled as parameters, so they are
not carried in the embedding. -/
structure Pos where
  x : ℚ
  y : ℚ
  deriving DecidableEq, Repr, Inhabited

/-- One `autoware_planning_msgs::msg::TrajectoryPoint`: planar pose position,
longitudinal velocity `twist.linear.x`, longitudinal acceleration
`accel.linear.x`, and the angular components `twist.angular.z`,
`accel.angular.z` interpolated by `resampleTrajectory`. -/
structure TrajectoryPoint where
  pos : Pos
  vel : ℚ
  acc : ℚ
  velAngZ : ℚ
  accAngZ : ℚ
  deriving DecidableEq, Repr, Inhabited

/-- `autoware_planning_msgs::msg::Trajectory.points` (the header carries no
data used by the smoother). -/
abbrev Trajectory := List TrajectoryPoint

/-- Default point used with `List.getD`; every in-contract execution path
indexes inside the list, as the theorems make explicit. -/
def dp : TrajectoryPoint := default

/-- Modelled from the spec: `autoware_utils::calcDistance2d` (an external
geometry utility, not among the sources under verification) is the planar
distance between two poses.  It is carried as an explicit parameter of this
type; theorems assume no more than nonnegativity, and concrete instantiations
use `|x₂ - x₁|`, which is the exact Euclidean distance for points sharing the
same `y` coordinate. -/
abbrev DistFn := Pos → Pos → ℚ

/-- `params.forward` of the analytical jerk constrained smoother. -/
structure ForwardParam where
  max_acc : ℚ
  min_acc : ℚ
  max_jerk : ℚ
  min_jerk : ℚ
  kp : ℚ
  deriving DecidableEq, Repr, Inhabited

/-- `params.backward` of the analytical jerk constrained smoother. -/
structure BackwardParam where
  start_jerk : ℚ
  min_jerk_mild_stop : ℚ
  min_jerk : ℚ
  span_jerk : ℚ
  min_acc_mild_stop : ℚ
  min_acc : ℚ
  deriving DecidableEq, Repr, Inhabited

/-- `params.latacc` of the analytical jerk constrained smoother. -/
structure LataccParam where
  enable_constant_velocity_while_turning : Bool
  constant_velocity_dist_threshold : ℚ
  deriving DecidableEq, Repr, Inhabited

/-- `Param` of the analytical jerk constrained smoother (the `resample`
sub-struct is reduced to the only field the embedded code reads,
`num_resample`, passed directly where needed). -/
structure Param where
  forward : ForwardParam
  backward : BackwardParam
  latacc : LataccParam
  deriving DecidableEq, Repr, Inhabited

/-- Fields of the smoother's `base_param_` read by
`applyLateralAccelerationFilter`. -/
structure BaseParam where
  decel_distance_before_curve : ℚ
  decel_distance_after_curve : ℚ
  max_lateral_accel : ℚ
  min_curve_velocity : ℚ
  deriving DecidableEq, Repr, Inhabited

/-! ## `applyMaxVelocity` (anonymous-namespace helper)

```cpp
bool applyMaxVelocity(max_velocity, start_index, end_index, output_trajectory) {
  if (end_index < start_index || output_trajectory.points.size() < end_index) return false;
  for (i = start_index; i <= end_index; ++i) {
    points.at(i).twist.linear.x = min(points.at(i).twist.linear.x, max_velocity);
    points.at(i).accel.linear.x = 0.0;
  }
  return true;
}
```

`points.at(i)` throws `std::out_of_range` when `i` is out of bounds; a thrown
exception is modelled as `none`. -/

/-- The capping loop `for (i = start_index; i <= end_index; ++i)`, iterating
over the remaining count `end_index + 1 - i`; `none` models the
`std::out_of_range` exception thrown by `points.at(i)` for `i ≥ size`. -/
def capLoop (max_velocity : ℚ) : Nat → Nat → Trajectory → Option Trajectory
  | i, fuel + 1, t =>
    if h : i < t.length then
      let pt := t.get ⟨i, h⟩
      capLoop max_velocity (i + 1) fuel
        (t.set i { pt with vel := min pt.vel max_velocity, acc := 0 })
    else
      none
  | _, 0, t => some t

/-- `applyMaxVelocity`.  `some (false, t)` is the guarded early `return false`
(trajectory untouched), `some (true, t)` the successful run, `none` a thrown
`std::out_of_range`. -/
def applyMaxVelocity (max_velocity : ℚ) (start_index end_index : Nat)
    (output_trajectory : Trajectory) : Option (Bool × Trajectory) :=
  if end_index < start_index ∨ output_trajectory.length < end_index then
    some (false, output_trajectory)
  else
    (capLoop max_velocity start_index (end_index + 1 - start_index)
      output_trajectory).map (fun t => (true, t))

/-- `apply` calls `applyMaxVelocity` ignoring its boolean result; all its call
sites stay in bounds (the theorems about `apply` only traverse such calls), so
the exception branch is mapped back to the untouched trajectory. -/
def applyMaxVelocityT (max_velocity : ℚ) (start_index end_index : Nat)
    (t : Trajectory) : Trajectory :=
  match applyMaxVelocity max_velocity start_index end_index t with
  | some (_, t2) => t2
  | none => t

/-! ## `applyForwardJerkFilter`

```cpp
output.points.at(start_index).twist.linear.x = initial_vel;
output.points.at(start_index).accel.linear.x = initial_acc;
for (i = start_index + 1; i < base.points.size(); ++i) {
  prev_vel = output.points.at(i-1).twist.linear.x;
  ds = calcDistance2d(base.points.at(i-1), base.points.at(i));
  dt = ds / max(prev_vel, 1.0);
  prev_acc = output.points.at(i-1).accel.linear.x;
  curr_vel = prev_vel + prev_acc * dt;
  error_vel = base.points.at(i).twist.linear.x - curr_vel;
  fb_acc = kp * error_vel;
  limited_acc = max(min_acc, min(max_acc, fb_acc));
  fb_jerk = (limited_acc - prev_acc) / dt;
  limited_jerk = max(min_jerk, min(max_jerk, fb_jerk));
  curr_acc = prev_acc + limited_jerk * dt;
  output.points.at(i) = {curr_vel, curr_acc};
}
```
-/

/-- The time step `dt = ds / std::max(prev_vel, 1.0)` of the forward filter. -/
def forwardDt (ds prev_vel : ℚ) : ℚ := ds / max prev_vel 1

/-- One iteration of the forward-jerk-filter loop: from the previously written
velocity/acceleration, the inter-point distance and the reference velocity,
produce the next written (velocity, acceleration) pair. -/
def fwdStep (fp : ForwardParam) (ds prev_vel prev_acc base_vel : ℚ) : ℚ × ℚ :=
  let dt := forwardDt ds prev_vel
  let curr_vel := prev_vel + prev_acc * dt
  let error_vel := base_vel - curr_vel
  let fb_acc := fp.kp * error_vel
  let limited_acc := max fp.min_acc (min fp.max_acc fb_acc)
  let fb_jerk := (limited_acc - prev_acc) / dt
  let limited_jerk := max fp.min_jerk (min fp.max_jerk fb_jerk)
  (curr_vel, prev_acc + limited_jerk * dt)

/-- The forward-filter loop from index `start_index + 1` on: `prevOut` is the
output point written at the previous index, `prevBase` the base point at the
previous index, and the two lists are the base and output tails from the
current index on.  Only `vel`/`acc` of the output points are rewritten. -/
def fwdScan (fp : ForwardParam) (dist : DistFn) :
    TrajectoryPoint → TrajectoryPoint → List TrajectoryPoint →
    List TrajectoryPoint → List TrajectoryPoint
  | prevOut, prevBase, b :: bs, o :: os =>
    let va := fwdStep fp (dist prevBase.pos b.pos) prevOut.vel prevOut.acc b.vel
    let o2 := { o with vel := va.1, acc := va.2 }
    o2 :: fwdScan fp dist o2 b bs os
  | _, _, _, os => os

/-- `applyForwardJerkFilter`.  When `start_index` is outside both lists the
C++ `points.at(start_index)` would throw; every call site in `apply` passes an
in-range index (all theorems only exercise such calls), so that branch returns
the output unchanged. -/
def applyForwardJerkFilter (fp : ForwardParam) (dist : DistFn)
    (base_trajectory : Trajectory) (start_index : Nat)
    (initial_vel initial_acc : ℚ) (output_trajectory : Trajectory) : Trajectory :=
  match base_trajectory.drop start_index, output_trajectory.drop start_index with
  | b0 :: bs, o0 :: os =>
    let o1 := { o0 with vel := initial_vel, acc := initial_acc }
    output_trajectory.take start_index ++ o1 :: fwdScan fp dist o1 b0 bs os
  | _, _ => output_trajectory

/-! ## `searchDecelTargetIndices`

```cpp
const double ep = -0.00001;
const size_t start_index = std::max<size_t>(1, closest_index);
std::vector<std::pair<size_t, double>> tmp_indices;
for (size_t i = start_index; i < trajectory.points.size() - 1; ++i) {
  dv_before = v(i) - v(i-1);
  dv_after  = v(i+1) - v(i);
  if (dv_before < ep && dv_after > ep) tmp_indices.emplace_back(i, v(i));
}
const unsigned int i = trajectory.points.size() - 1;
if (v(i) - v(i-1) < ep) tmp_indices.emplace_back(i, v(i));
if (!tmp_indices.empty()) {
  for (unsigned int i = 0; i < tmp_indices.size() - 1; ++i) {
    if (tmp[i+1].first - tmp[i].first < 10 && tmp[i+1].second < tmp[i].second) continue;
    decel_target_indices.emplace_back(tmp[i]);
  }
  decel_target_indices.emplace_back(tmp.back());
}
```
-/

/-- `trajectory.points.at(i).twist.linear.x`. -/
def velAt (t : Trajectory) (i : Nat) : ℚ := (t.getD i dp).vel

/-- The tolerance `ep = -0.00001` of `searchDecelTargetIndices`. -/
def epSearch : ℚ := -1 / 100000

/-- The local-minimum test of the interior scan at index `i`. -/
def isDecelCandidate (t : Trajectory) (i : Nat) : Prop :=
  velAt t i - velAt t (i - 1) < epSearch ∧ velAt t (i + 1) - velAt t i > epSearch

instance (t : Trajectory) (i : Nat) : Decidable (isDecelCandidate t i) := by
  unfold isDecelCandidate; infer_instance

/-- The `for (i = start_index; i < size - 1; ++i)` scan collecting
`tmp_indices`, written as a filter over the traversed index range (the loop
body appends at most one pair per index, in index order). -/
def tmpIndices (t : Trajectory) (closest_index : Nat) : List (Nat × ℚ) :=
  let n := t.length
  let start_index := max 1 closest_index
  let interior := ((List.range n).filter
      (fun i => start_index ≤ i ∧ i + 1 < n ∧ isDecelCandidate t i)).map
      (fun i => (i, velAt t i))
  interior ++
    (if velAt t (n - 1) - velAt t (n - 1 - 1) < epSearch
      then [(n - 1, velAt t (n - 1))] else [])

/-- The coalescing pass over `tmp_indices`: drop an entry whose successor is
fewer than `index_err = 10` indices later with a strictly lower velocity; the
final entry is always appended. -/
def coalesceTargets : List (Nat × ℚ) → List (Nat × ℚ)
  | [] => []
  | [a] => [a]
  | a :: b :: rest =>
    (if b.1 - a.1 < 10 ∧ b.2 < a.2 then [] else [a]) ++ coalesceTargets (b :: rest)

/-- `searchDecelTargetIndices` (its C++ `bool` result is the constant `true`
and its out-parameter starts empty at the only call site, so the embedding
returns the written list). -/
def searchDecelTargetIndices (trajectory : Trajectory) (closest_index : Nat) :
    List (Nat × ℚ) :=
  coalesceTargets (tmpIndices trajectory closest_index)

/-! ## `resampleTrajectory`

```cpp
if (input.points.empty()) return {};
const double ds = 1.0 / num_resample;
for (i = 0; i < input.points.size() - 1; ++i) {
  double s = 0.0;
  tp0 = input.points.at(i); tp1 = input.points.at(i+1);
  if (fabs(calcDistance2d(tp0, tp1)) < 0.001) { output.push_back(tp0); continue; }
  for (j = 0; j < num_resample; ++j) {
    auto tp = input.points.at(i);
    tp.pose = lerpByPose(tp0.pose, tp1.pose, s);
    tp.twist.linear.x = tp0.twist.linear.x;
    tp.twist.angular.z = (1-s)*tp0.twist.angular.z + s*tp1.twist.angular.z;
    tp.accel.linear.x = tp0.accel.linear.x;
    tp.accel.angular.z = (1-s)*tp0.accel.angular.z + s*tp1.accel.angular.z;
    output.push_back(tp);
    s += ds;
  }
}
output.push_back(input.points.back());
```
-/

/-- Modelled from the spec: `lerpByPose` interpolates two poses through `tf2`
linear/spherical interpolation (external library code); its planar-position
part is carried as an abstract parameter of this type. -/
abbrev LerpPoseFn := Pos → Pos → ℚ → Pos

/-- `resampleTrajectory`; `none` is the empty-input `return {}`. -/
def resampleTrajectory (lerpByPose : LerpPoseFn) (dist : DistFn)
    (num_resample : Nat) (input : Trajectory) : Option Trajectory :=
  match input with
  | [] => none
  | _ :: _ =>
    let ds : ℚ := 1 / (num_resample : ℚ)
    let segs := (List.range (input.length - 1)).flatMap (fun i =>
      let tp0 := input.getD i dp
      let tp1 := input.getD (i + 1) dp
      if |dist tp0.pos tp1.pos| < 1 / 1000 then [tp0]
      else (List.range num_resample).map (fun (j : ℕ) =>
        let s : ℚ := (j : ℚ) * ds
        { tp0 with
          pos := lerpByPose tp0.pos tp1.pos s
          velAngZ := (1 - s) * tp0.velAngZ + s * tp1.velAngZ
          accAngZ := (1 - s) * tp0.accAngZ + s * tp1.accAngZ }))
    some (segs ++ [input.getLastD dp])

/-! ## `applyBackwardDecelFilter` and its helpers

The two analytical kinematics routines it calls,
`analytical_velocity_planning_utils::calcStopDistWithJerkAndAccConstraints`
and `calcStopVelocityWithConstantJerkAccLimit`, are not among the sources
under verification.  Modelled from the spec: they compute a closed-form
jerk-limited stopping profile — up to 3 phases (jerk ramp to minimum
acceleration, constant acceleration, jerk ramp back to zero), a profile
`type` saying which phases are needed, the phase `times`, and its stopping
distance — respectively write that profile's velocities into the trajectory
from a start index on, failing (`none`) when no profile exists.  Both are
carried as abstract function parameters of the types below. -/

/-- Modelled from the spec:
`calcStopDistWithJerkAndAccConstraints(v0, a0, jerk_acc, jerk_dec, min_acc,
decel_target_vel, &type, &times, &stop_dist)`; `none` is a `false` return
(out-parameters then unread), `some (type, times, stop_dist)` a `true` one. -/
abbrev StopDistFn := ℚ → ℚ → ℚ → ℚ → ℚ → ℚ → Option (Int × List ℚ × ℚ)

/-- Modelled from the spec:
`calcStopVelocityWithConstantJerkAccLimit(v0, a0, jerk_acc, jerk_dec, min_acc,
decel_target_vel, type, times, start_index, &trajectory)`; `none` is a `false`
return (the trajectory is then treated as unmodified), `some t` the rewritten
trajectory. -/
abbrev StopVelFn := ℚ → ℚ → ℚ → ℚ → ℚ → ℚ → Int → List ℚ → Nat → Trajectory → Option Trajectory

/-- The `calcMinAcc` lambda shared by `calcEnoughDistForDecel` and
`applyDecelVelocityFilter`. -/
def calcMinAcc (p : Param) (planning_jerk : ℚ) : ℚ :=
  if planning_jerk < p.backward.min_jerk_mild_stop then p.backward.min_acc
  else p.backward.min_acc_mild_stop

/-- `calcEnoughDistForDecel` for a given planning jerk: `some (type, times)`
is a `true` return (which also sets `is_enough_dist`), `none` a `false` one.
`dist_to_target` is passed as the lookup function `dtt`. -/
def calcEnoughDistForDecel (calcStopDist : StopDistFn) (p : Param)
    (trajectory : Trajectory) (start_index : Nat) (decel_target_vel planning_jerk : ℚ)
    (dtt : Nat → ℚ) : Option (Int × List ℚ) :=
  let v0 := (trajectory.getD start_index dp).vel
  let a0 := (trajectory.getD start_index dp).acc
  match calcStopDist v0 a0 |planning_jerk| planning_jerk (calcMinAcc p planning_jerk)
      decel_target_vel with
  | none => none
  | some (ty, times, stop_dist) =>
    if 0 ≤ stop_dist ∧ stop_dist ≤ dtt start_index then some (ty, times) else none

/-- The planning jerk tried at iteration `k` of the scan
`for (j = start_jerk; j > min_jerk - 0.001; j += span_jerk)` (line 474):
`start_jerk + k * span_jerk`. -/
def scannedJerk (p : Param) (k : Nat) : ℚ :=
  p.backward.start_jerk + k * p.backward.span_jerk

/-- The planning jerks scanned by
`for (j = start_jerk; j > min_jerk - 0.001; j += span_jerk)`, in scan order.
For `span_jerk < 0` this is exactly the finite sequence of jerks the loop
tries before its condition fails (`jerkSeq_faithful` proves it: the list is
`scannedJerk` over an initial segment `[0, K)` of the iterations, and the loop
condition holds at iteration `k` precisely when `k < K`).  For
`span_jerk ≥ 0` the C++ loop performs zero iterations when
`start_jerk ≤ min_jerk - 0.001` (the embedding returns `[]`) and breaks at
`start_jerk` when its first try succeeds (the embedding returns
`[start_jerk]`); but when the first try fails it retries forever — the same
jerk for `span_jerk = 0`, ever larger jerks for `span_jerk > 0` — and never
returns.  No finite list models that divergence: `jerkScanContinues` /
`jerkScanDiverges` below state it, claim C2's counterexample exhibits a
configuration and input on which the program hangs this way, and every
theorem that exercises the backward scan either restricts to
`span_jerk < 0` or hypothesizes the filter's returned result. -/
def jerkSeq (p : Param) : List ℚ :=
  let low := p.backward.min_jerk - 1 / 1000
  if p.backward.span_jerk < 0 then
    let count := (⌈(p.backward.start_jerk - low) / (-p.backward.span_jerk)⌉).toNat
    ((List.range count).map (scannedJerk p)).filter (fun j => low < j)
  else if low < p.backward.start_jerk then [p.backward.start_jerk] else []

/-- Iteration `k` of the jerk scan at line 474 leaves the loop running: the
loop condition `scannedJerk p k > min_jerk - 0.001` holds and the body's
`calcEnoughDistForDecel` call fails to break. -/
def jerkScanContinues (calcStopDist : StopDistFn) (p : Param)
    (trajectory : Trajectory) (start_index : Nat) (decel_target_vel : ℚ)
    (dtt : Nat → ℚ) (k : Nat) : Prop :=
  p.backward.min_jerk - 1 / 1000 < scannedJerk p k ∧
  calcEnoughDistForDecel calcStopDist p trajectory start_index decel_target_vel
    (scannedJerk p k) dtt = none

/-- Every iteration of the jerk scan leaves the loop running: the C++ loop
at line 474, entered with these arguments, never exits, so
`applyBackwardDecelFilter` — and with it `apply` — never returns. -/
def jerkScanDiverges (calcStopDist : StopDistFn) (p : Param)
    (trajectory : Trajectory) (start_index : Nat) (decel_target_vel : ℚ)
    (dtt : Nat → ℚ) : Prop :=
  ∀ k, jerkScanContinues calcStopDist p trajectory start_index decel_target_vel
    dtt k

/-- The start-index adjustment
`for (i = start_index; i < decel_target_index; ++i)
   if (points.at(i).twist.linear.x >= decel_target_vel) { start_index = i; break; }`. -/
def adjustStart (trajectory : Trajectory) (start_index decel_target_index : Nat)
    (decel_target_vel : ℚ) : Nat :=
  match (List.range (decel_target_index - start_index)).find?
      (fun k => decel_target_vel ≤ (trajectory.getD (start_index + k) dp).vel) with
  | some k => start_index + k
  | none => start_index

/-- Arc length along the trajectory from index `k` to index `target`. -/
def segSum (dist : DistFn) (trajectory : Trajectory) (k target : Nat) : ℚ :=
  ((List.range (target - k)).map
    (fun m => dist (trajectory.getD (k + m) dp).pos
      (trajectory.getD (k + m + 1) dp).pos)).sum

/-- The `dist_to_target` vector built backwards from `decel_target_index` down
to the (adjusted) start index, as a lookup function: entries outside
`[start_index, decel_target_index]` keep their zero initialization. -/
def dttFun (dist : DistFn) (trajectory : Trajectory) (start_index decel_target_index : Nat) :
    Nat → ℚ := fun k =>
  if start_index ≤ k ∧ k ≤ decel_target_index then segSum dist trajectory k decel_target_index
  else 0

/-- One candidate start index of `applyBackwardDecelFilter`'s outer loop:
adjust the start index, build `dist_to_target`, and scan the planning jerks
until `calcEnoughDistForDecel` succeeds.  `some (jerk, start, dtt, type, times)`
bundles everything the `planning_jerk >= output_planning_jerk` update saves;
`none` is the `!is_enough_dist → continue` path. -/
def tryStartIndex (calcStopDist : StopDistFn) (dist : DistFn) (p : Param)
    (trajectory : Trajectory) (start_index0 decel_target_index : Nat)
    (decel_target_vel : ℚ) : Option (ℚ × Nat × (Nat → ℚ) × Int × List ℚ) :=
  let start_index := adjustStart trajectory start_index0 decel_target_index decel_target_vel
  let dtt := dttFun dist trajectory start_index decel_target_index
  (jerkSeq p).findSome? (fun j =>
    (calcEnoughDistForDecel calcStopDist p trajectory start_index decel_target_vel j
        dtt).map (fun tt => (j, start_index, dtt, tt.1, tt.2)))

/-- The outer loop over `start_indices` keeping the best candidate.  The
accumulator starts at the sentinel `output_planning_jerk = -100` (with the
zero-initialized companions), and a successful candidate replaces it exactly
when its planning jerk is `>=` the stored one — including the C++ corner case
where a feasible jerk of exactly `-100` is stored and then discarded by the
`== -100.0` failure test. -/
def selectBest (calcStopDist : StopDistFn) (dist : DistFn) (p : Param)
    (trajectory : Trajectory) (start_indices : List Nat)
    (decel_target_index : Nat) (decel_target_vel : ℚ) :
    ℚ × Nat × (Nat → ℚ) × Int × List ℚ :=
  start_indices.foldl (fun best s =>
    match tryStartIndex calcStopDist dist p trajectory s decel_target_index
        decel_target_vel with
    | none => best
    | some cand => if best.1 ≤ cand.1 then cand else best)
    (-100, 0, fun _ => 0, 0, [])

/-- The decel-start-index search
`if (output_planning_jerk == start_jerk)
   for (i = decel_target_index - 1; i >= output_start_index; --i) ...`,
returning the chosen start index with the (`type`, `times`) written by the
breaking `calcEnoughDistForDecel` call.  When the scan finds nothing (which
cannot happen when the best candidate itself succeeded, as the scan re-tries
it at `i = output_start_index`), the saved best values are kept. -/
def searchDecelStart (calcStopDist : StopDistFn) (p : Param)
    (trajectory : Trajectory) (best : ℚ × Nat × (Nat → ℚ) × Int × List ℚ)
    (decel_target_index : Nat) (decel_target_vel : ℚ) : Nat × Int × List ℚ :=
  if best.1 = p.backward.start_jerk then
    match (List.range (decel_target_index - best.2.1)).findSome? (fun k =>
        let i := decel_target_index - 1 - k
        (calcEnoughDistForDecel calcStopDist p trajectory i decel_target_vel best.1
            best.2.2.1).map (fun tt => (i, tt.1, tt.2))) with
    | some r => r
    | none => (best.2.1, best.2.2.2.1, best.2.2.2.2)
  else (best.2.1, best.2.2.2.1, best.2.2.2.2)

/-- `applyDecelVelocityFilter`. -/
def applyDecelVelocityFilter (calcStopVelocity : StopVelFn) (p : Param)
    (decel_start_index : Nat) (decel_target_vel planning_jerk : ℚ) (ty : Int)
    (times : List ℚ) (output_trajectory : Trajectory) : Option Trajectory :=
  let v0 := (output_trajectory.getD decel_start_index dp).vel
  let a0 := (output_trajectory.getD decel_start_index dp).acc
  calcStopVelocity v0 a0 |planning_jerk| planning_jerk (calcMinAcc p planning_jerk)
    decel_target_vel ty times decel_start_index output_trajectory

/-- `applyBackwardDecelFilter`: `none` is a `false` return (no feasible
start index/jerk, or `applyDecelVelocityFilter` failed). -/
def applyBackwardDecelFilter (calcStopDist : StopDistFn)
    (calcStopVelocity : StopVelFn) (dist : DistFn) (p : Param)
    (start_indices : List Nat) (decel_target_index : Nat) (decel_target_vel : ℚ)
    (output_trajectory : Trajectory) : Option Trajectory :=
  let best := selectBest calcStopDist dist p output_trajectory start_indices
    decel_target_index decel_target_vel
  if best.1 = -100 then none
  else
    let dsr := searchDecelStart calcStopDist p output_trajectory best
      decel_target_index decel_target_vel
    applyDecelVelocityFilter calcStopVelocity p dsr.1 decel_target_vel best.1
      dsr.2.1 dsr.2.2 output_trajectory

/-! ## `apply`

The per-target loop of `apply`, its fallback on backward-filter failure, and
the final forward pass.  `closest_index` is the constant `0` (the input
trajectory is pre-cropped, source line 87). -/

/-- Lines 112–123: start index, velocity and acceleration of the forward pass
for target `i` (`filt` is the filtered trajectory before this iteration). -/
def fwdSelect (initial_vel initial_acc : ℚ) (targets : List (Nat × ℚ))
    (filt : Trajectory) (i : Nat) : Nat × ℚ × ℚ :=
  if i = 0 then (0, initial_vel, initial_acc)
  else
    let idx := (targets.getD (i - 1) (0, 0)).1
    (idx, (filt.getD idx dp).vel, (filt.getD idx dp).acc)

/-- Lines 130–146: the backward start selection, scanning `j` from `i` down to
`0` (`filt` is the filtered trajectory after this iteration's forward pass). -/
def bwdSelect (initial_vel initial_acc : ℚ) (targets : List (Nat × ℚ))
    (filt : Trajectory) : Nat → Nat × ℚ × ℚ
  | 0 => (0, initial_vel, initial_acc)
  | j + 1 =>
    if (targets.getD j (0, 0)).2 < (targets.getD (j + 1) (0, 0)).2 then
      let idx := (targets.getD j (0, 0)).1
      (idx, (filt.getD idx dp).vel, (filt.getD idx dp).acc)
    else bwdSelect initial_vel initial_acc targets filt j

/-- Lines 147–153: the candidate start indices handed to the backward filter. -/
def startIndicesFor (bwd fwd : Nat) : List Nat :=
  if bwd ≠ fwd then [bwd, fwd] else [bwd]

/-- One iteration of the per-target loop (lines 111–185) on the state
`(reference_trajectory, filtered_trajectory)`.  `Sum.inr` is the early
`return true` of the near-zero-target fallback; `Sum.inl` continues with the
next state. -/
def applyTargetStep (calcStopDist : StopDistFn) (calcStopVelocity : StopVelFn)
    (dist : DistFn) (p : Param) (initial_vel initial_acc : ℚ)
    (targets : List (Nat × ℚ)) (i : Nat) (st : Trajectory × Trajectory) :
    Trajectory × Trajectory ⊕ Trajectory :=
  let fsel := fwdSelect initial_vel initial_acc targets st.2 i
  let filt1 := applyForwardJerkFilter p.forward dist st.1 fsel.1 fsel.2.1 fsel.2.2 st.2
  let bsel := bwdSelect initial_vel initial_acc targets filt1 i
  let target := targets.getD i (0, 0)
  match applyBackwardDecelFilter calcStopDist calcStopVelocity dist p
      (startIndicesFor bsel.1 fsel.1) target.1 target.2 filt1 with
  | some filt2 => Sum.inl (st.1, filt2)
  | none =>
    if |target.2| < 1 / 1000 then
      Sum.inr (applyMaxVelocityT 0 bsel.1 (filt1.length - 1) filt1)
    else
      let ref2 := applyMaxVelocityT target.2 bsel.1 target.1 st.1
      Sum.inl (ref2, applyForwardJerkFilter p.forward dist ref2 bsel.1 bsel.2.1
        bsel.2.2 filt1)

/-- Lines 187–201: the final forward pass after the per-target loop. -/
def finalPass (dist : DistFn) (p : Param) (initial_vel initial_acc : ℚ)
    (targets : List (Nat × ℚ)) (st : Trajectory × Trajectory) : Trajectory :=
  let sel :=
    if targets.isEmpty then (0, initial_vel, initial_acc)
    else
      let idx := (targets.getLastD (0, 0)).1
      (idx, (st.2.getD idx dp).vel, (st.2.getD idx dp).acc)
  applyForwardJerkFilter p.forward dist st.1 sel.1 sel.2.1 sel.2.2 st.2

/-- The per-target loop from target `i` on (the first list argument is the
full target list indexed by `i`, the second the targets still to process),
followed by the final pass. -/
def applyLoop (calcStopDist : StopDistFn) (calcStopVelocity : StopVelFn)
    (dist : DistFn) (p : Param) (initial_vel initial_acc : ℚ)
    (targets : List (Nat × ℚ)) :
    List (Nat × ℚ) → Nat → Trajectory × Trajectory → Trajectory
  | [], _, st => finalPass dist p initial_vel initial_acc targets st
  | _ :: rest, i, st =>
    match applyTargetStep calcStopDist calcStopVelocity dist p initial_vel
        initial_acc targets i st with
    | Sum.inr out => out
    | Sum.inl st2 => applyLoop calcStopDist calcStopVelocity dist p initial_vel
        initial_acc targets rest (i + 1) st2

/-- `AnalyticalJerkConstrainedSmoother::apply`.  `none` models the `false`
return (the caller's output trajectory is then untouched); `some t` models a
`true` return writing `t` into the output trajectory. -/
def apply (calcStopDist : StopDistFn) (calcStopVelocity : StopVelFn)
    (dist : DistFn) (p : Param) (initial_vel initial_acc : ℚ)
    (input : Trajectory) : Option Trajectory :=
  match input with
  | [] => none
  | [pt] => some [{ pt with vel := initial_vel, acc := initial_acc }]
  | _ =>
    let closest_index := 0
    let targets := searchDecelTargetIndices input closest_index
    some (applyLoop calcStopDist calcStopVelocity dist p initial_vel initial_acc
      targets targets 0 (input, input))

/-! ## Bound predicates for the smoother's output (claim C1) -/

/-- Acceleration of every trajectory point within the forward bounds. -/
def accWithinBounds (fp : ForwardParam) (t : Trajectory) : Prop :=
  ∀ pt ∈ t, fp.min_acc ≤ pt.acc ∧ pt.acc ≤ fp.max_acc

instance (fp : ForwardParam) (t : Trajectory) : Decidable (accWithinBounds fp t) :=
  List.decidableBAll _ t

/-- The finite-difference jerk between consecutive output points `i` and
`i + 1`, over the time step the forward filter uses for that segment. -/
def fdJerk (dist : DistFn) (t : Trajectory) (i : Nat) : ℚ :=
  ((t.getD (i + 1) dp).acc - (t.getD i dp).acc) /
    forwardDt (dist (t.getD i dp).pos (t.getD (i + 1) dp).pos) (t.getD i dp).vel

/-- Finite-difference jerk of every consecutive pair within the forward jerk
bounds. -/
def jerkWithinBounds (fp : ForwardParam) (dist : DistFn) (t : Trajectory) : Prop :=
  ∀ i < t.length - 1, fp.min_jerk ≤ fdJerk dist t i ∧ fdJerk dist t i ≤ fp.max_jerk

instance (fp : ForwardParam) (dist : DistFn) (t : Trajectory) :
    Decidable (jerkWithinBounds fp dist t) := Nat.decidableBallLT _ _

/-- Consecutive inter-point distances all positive (no duplicated poses, so no
zero time step and no division by zero inside the forward filter). -/
def adjacentDistPos (dist : DistFn) (t : Trajectory) : Prop :=
  ∀ i < t.length - 1, 0 < dist (t.getD i dp).pos (t.getD (i + 1) dp).pos

instance (dist : DistFn) (t : Trajectory) : Decidable (adjacentDistPos dist t) :=
  Nat.decidableBallLT _ _

/-! ## `applyLateralAccelerationFilter`

```cpp
if (input.points.empty()) return boost::none;
if (input.points.size() < 3) return input;  // cannot calculate lateral acc
constexpr double points_interval = 0.1;
in_arclength = calcArclengthArray(input);
for (s = 0; s < in_arclength.back(); s += points_interval) out_arclength.push_back(s);
output = applyLinearInterpolation(in_arclength, input, out_arclength);
if (!output) return boost::none;
output->points.back().twist = input.points.back().twist;
idx_dist = max(int(5.0 / points_interval), 1);
curvature_v = calcTrajectoryCurvatureFrom3Points(*output, idx_dist);
if (!curvature_v) return input;
before_decel_index = round(decel_distance_before_curve / points_interval);
after_decel_index  = round(decel_distance_after_curve / points_interval);
max_lateral_accel_abs = fabs(max_lateral_accel);
for (i = 0; i < output->points.size(); ++i) {
  curvature = 0.0;
  start = i > before_decel_index ? i - before_decel_index : 0;
  end = min(output->points.size(), i + after_decel_index);
  for (j = start; j < end; ++j) curvature = max(curvature, fabs(curvature_v->at(j)));
  v_curvature_max = sqrt(max_lateral_accel_abs / max(curvature, 1.0E-5));
  v_curvature_max = max(v_curvature_max, min_curve_velocity);
  if (v(i) > v_curvature_max) { v(i) = v_curvature_max; filtered_points.push_back(i); }
}
// grouping of filtered_points within dist_threshold, then assignment of each
// group's minimum velocity over [start_index, end_index] when
// enable_constant_velocity_while_turning
```

`calcArclengthArray`, `applyLinearInterpolation` and
`calcTrajectoryCurvatureFrom3Points` are `trajectory_utils` code outside the
sources under verification; the latter two are abstract parameters, the first
is modelled from the spec as the list of cumulative planar arc lengths.
`std::sqrt` is likewise carried as an abstract parameter `sqrtQ`; theorems
assume only that it is a nonnegative under-approximation of the square root
(`0 ≤ sqrtQ y` and `(sqrtQ y)² ≤ y` for `y ≥ 0`), which the exact square root
satisfies. -/

/-- Modelled from the spec:
`trajectory_utils::applyLinearInterpolation(base_index, base_trajectory,
out_index)`; `none` is a failed interpolation. -/
abbrev InterpFn := List ℚ → Trajectory → List ℚ → Option Trajectory

/-- Modelled from the spec:
`trajectory_utils::calcTrajectoryCurvatureFrom3Points(trajectory, idx_dist)`;
`none` is a failed curvature estimation. -/
abbrev Curv3Fn := Trajectory → Nat → Option (List ℚ)

/-- Modelled: `std::sqrt` on nonnegative rationals. -/
abbrev SqrtFn := ℚ → ℚ

/-- Modelled from the spec: `trajectory_utils::calcArclengthArray` — the
cumulative planar arc length at every point. -/
def calcArclengthArray (dist : DistFn) (t : Trajectory) : List ℚ :=
  (List.range t.length).map (fun i => segSum dist t 0 i)

/-- The resampled arc lengths `0, 0.1, 0.2, ... < back` (exact-arithmetic
rendering of the `for (s = 0; s < back; s += 0.1)` loop). -/
def outArclength (back : ℚ) : List ℚ :=
  (List.range (⌈back * 10⌉).toNat).map (fun k => (k : ℚ) / 10)

/-- `output->points.back().twist = input.points.back().twist`. -/
def setLastTwist (input t : Trajectory) : Trajectory :=
  t.set (t.length - 1)
    { t.getD (t.length - 1) dp with
      vel := (input.getLastD dp).vel, velAngZ := (input.getLastD dp).velAngZ }

/-- `idx_dist = max(int(curvature_calc_dist / points_interval), 1)` (in exact
arithmetic `50`; the C++ `double` expression truncates to `49`, which only
reaches the modelled curvature estimator). -/
def curvIdxDist : Nat := max (⌊(5 : ℚ) / (1 / 10)⌋).toNat 1

/-- `std::round` for the nonnegative decel-distance configuration values. -/
def roundNat (x : ℚ) : Nat := (⌊x + 1 / 2⌋).toNat

/-- `before_decel_index = round(decel_distance_before_curve / points_interval)`. -/
def lataccBefore (bp : BaseParam) : Nat :=
  roundNat (bp.decel_distance_before_curve / (1 / 10))

/-- `after_decel_index = round(decel_distance_after_curve / points_interval)`. -/
def lataccAfter (bp : BaseParam) : Nat :=
  roundNat (bp.decel_distance_after_curve / (1 / 10))

/-- The inner curvature scan at index `i`: maximum absolute curvature over
`[max(i - before, 0), min(n, i + after))`, starting from `0.0`. -/
def windowCurvature (curvature_v : List ℚ) (n before after : Nat) (i : Nat) : ℚ :=
  let start := if i > before then i - before else 0
  let e := min n (i + after)
  ((List.range (e - start)).map (fun k => |curvature_v.getD (start + k) 0|)).foldl
    max 0

/-- `v_curvature_max`: the curvature speed cap floored at
`min_curve_velocity`. -/
def vCurvatureMax (sqrtQ : SqrtFn) (max_lateral_accel_abs min_curve_velocity κ : ℚ) : ℚ :=
  max (sqrtQ (max_lateral_accel_abs / max κ (1 / 100000))) min_curve_velocity

/-- Indexed map mirroring a C++ loop that rewrites each element once from its
index. -/
def mapWithIndex (f : Nat → TrajectoryPoint → TrajectoryPoint) :
    Nat → List TrajectoryPoint → List TrajectoryPoint
  | _, [] => []
  | s, x :: xs => f s x :: mapWithIndex f (s + 1) xs

/-- The per-index `v_curvature_max` of the capping loop over a trajectory of
length `n`. -/
def lataccVmax (sqrtQ : SqrtFn) (bp : BaseParam) (curvature_v : List ℚ)
    (n before after i : Nat) : ℚ :=
  vCurvatureMax sqrtQ |bp.max_lateral_accel| bp.min_curve_velocity
    (windowCurvature curvature_v n before after i)

/-- The speed-cap loop: cap every point whose velocity exceeds its
`v_curvature_max`, and collect the capped indices (`filtered_points`). -/
def lataccCapped (sqrtQ : SqrtFn) (bp : BaseParam) (curvature_v : List ℚ)
    (before after : Nat) (t : Trajectory) : Trajectory × List Nat :=
  (mapWithIndex (fun i pt =>
      if lataccVmax sqrtQ bp curvature_v t.length before after i < pt.vel then
        { pt with vel := lataccVmax sqrtQ bp curvature_v t.length before after i }
      else pt) 0 t,
   (List.range t.length).filter (fun i =>
      lataccVmax sqrtQ bp curvature_v t.length before after i < (t.getD i dp).vel))

/-- The grouping loop body once a group `[s, e]` with minimum `m` is open:
extend the group while the next capped index is within the distance threshold
of the current end, otherwise flush `(s, e, m)` and open a new group. -/
def lataccGroupsGo (dist : DistFn) (t : Trajectory) (thr : ℚ) :
    Nat → Nat → ℚ → List Nat → List (Nat × Nat × ℚ)
  | s, e, m, [] => [(s, e, m)]
  | s, e, m, j :: rest =>
    if dist ((t.getD e dp).pos) ((t.getD j dp).pos) < thr then
      lataccGroupsGo dist t thr s j (min ((t.getD j dp).vel) m) rest
    else
      (s, e, m) :: lataccGroupsGo dist t thr j j ((t.getD j dp).vel) rest

/-- `latacc_filtered_ranges`: the maximal groups of consecutive
`filtered_points` whose successive members are closer than the distance
threshold, each with the minimum capped velocity of the group. -/
def lataccGroups (dist : DistFn) (t : Trajectory) (thr : ℚ) :
    List Nat → List (Nat × Nat × ℚ)
  | [] => []
  | j :: rest => lataccGroupsGo dist t thr j j ((t.getD j dp).vel) rest

/-- The assignment loop: each point inside a (first-matching) range receives
that range's minimum velocity, when
`enable_constant_velocity_while_turning`. -/
def lataccAssign (enable : Bool) (ranges : List (Nat × Nat × ℚ))
    (t : Trajectory) : Trajectory :=
  mapWithIndex (fun i pt =>
    match ranges.find? (fun r => decide (r.1 ≤ i ∧ i ≤ r.2.1 ∧ enable = true)) with
    | some r => { pt with vel := r.2.2 }
    | none => pt) 0 t

/-- The capping stage with the configured decel windows. -/
def lataccCappedOf (sqrtQ : SqrtFn) (bp : BaseParam) (curvature_v : List ℚ)
    (t : Trajectory) : Trajectory × List Nat :=
  lataccCapped sqrtQ bp curvature_v (lataccBefore bp) (lataccAfter bp) t

/-- The `latacc_filtered_ranges` computed from the capping stage. -/
def lataccRangesOf (sqrtQ : SqrtFn) (dist : DistFn) (bp : BaseParam)
    (lp : LataccParam) (curvature_v : List ℚ) (t : Trajectory) :
    List (Nat × Nat × ℚ) :=
  lataccGroups dist (lataccCappedOf sqrtQ bp curvature_v t).1
    lp.constant_velocity_dist_threshold (lataccCappedOf sqrtQ bp curvature_v t).2

/-- `applyLateralAccelerationFilter`. -/
def applyLateralAccelerationFilter (sqrtQ : SqrtFn) (interp : InterpFn)
    (curv3 : Curv3Fn) (dist : DistFn) (bp : BaseParam) (lp : LataccParam)
    (input : Trajectory) : Option Trajectory :=
  match input with
  | [] => none
  | _ :: _ =>
    if input.length < 3 then some input
    else
      let in_arclength := calcArclengthArray dist input
      match interp in_arclength input (outArclength (in_arclength.getLastD 0)) with
      | none => none
      | some mid =>
        let mid2 := setLastTwist input mid
        match curv3 mid2 curvIdxDist with
        | none => some input
        | some curvature_v =>
          some (lataccAssign lp.enable_constant_velocity_while_turning
            (lataccRangesOf sqrtQ dist bp lp curvature_v mid2)
            (lataccCappedOf sqrtQ bp curvature_v mid2).1)

/-- Claim C5's per-point property exactly as stated: squared velocity times
the window curvature within the lateral-acceleration bound, unless the
velocity equals the floor velocity. -/
def lataccClaimAsStated (bp : BaseParam) (curvature_v : List ℚ)
    (before after : Nat) (t : Trajectory) : Prop :=
  ∀ k < t.length,
    ((t.getD k dp).vel) ^ 2 * windowCurvature curvature_v t.length before after k ≤
      |bp.max_lateral_accel| ∨
    (t.getD k dp).vel = bp.min_curve_velocity

instance (bp : BaseParam) (curvature_v : List ℚ) (before after : Nat)
    (t : Trajectory) : Decidable (lataccClaimAsStated bp curvature_v before after t) :=
  Nat.decidableBallLT _ _

/-! ## Spec-side rendering of claim C4 (deceleration-target detection)

These definitions follow the claim's words — local minima of the velocity
profile over `[max(1, closest_index), size-2]` with tolerance `1e-5`, plus the
final index when velocity decreases into it, pruned positionally by the
next-candidate rule — to be compared with the source embedding
`searchDecelTargetIndices`. -/

/-- Claim C4's candidate set: every interior index `i` from
`max(1, closest_index)` to `size - 2` where velocity decreases from `i-1` to
`i` and does not decrease from `i` to `i+1` (tolerance `1e-5`), plus the final
index when velocity decreases into it. -/
def specCandidates (t : Trajectory) (closest_index : Nat) : List (Nat × ℚ) :=
  let n := t.length
  ((List.range n).filter (fun i =>
      max 1 closest_index ≤ i ∧ i ≤ n - 2 ∧
      velAt t i - velAt t (i - 1) < -(1/100000) ∧
      velAt t (i + 1) - velAt t i > -(1/100000))).map (fun i => (i, velAt t i)) ++
    (if velAt t (n - 1) - velAt t (n - 2) < -(1/100000)
      then [(n - 1, velAt t (n - 1))] else [])

/-- Claim C4's skip rule for the candidate at position `k`: the next candidate
exists, is fewer than 10 indices later, and has a strictly lower target
velocity. -/
def specSkipped (cs : List (Nat × ℚ)) (k : Nat) : Bool :=
  decide (k + 1 < cs.length ∧
    (cs.getD (k + 1) (0, 0)).1 - (cs.getD k (0, 0)).1 < 10 ∧
    (cs.getD (k + 1) (0, 0)).2 < (cs.getD k (0, 0)).2)

/-- Claim C4's result: exactly the candidates that are not skipped, in
order. -/
def specPruned (cs : List (Nat × ℚ)) : List (Nat × ℚ) :=
  ((List.range cs.length).filter (fun k => ! specSkipped cs k)).map
    (fun k => cs.getD k (0, 0))

/-- Finite-difference jerk between two consecutive points, pairwise form. -/
def fdJerkPair (dist : DistFn) (a b : TrajectoryPoint) : ℚ :=
  (b.acc - a.acc) / forwardDt (dist a.pos b.pos) a.vel

/-- Chained form of `accWithinBounds`/`jerkWithinBounds` along a list hanging
off a previous point, used to run induction along `fwdScan`. -/
def accJerkChain (fp : ForwardParam) (dist : DistFn) :
    TrajectoryPoint → List TrajectoryPoint → Prop
  | _, [] => True
  | prev, x :: xs =>
    (fp.min_acc ≤ x.acc ∧ x.acc ≤ fp.max_acc) ∧
    (fp.min_jerk ≤ fdJerkPair dist prev x ∧ fdJerkPair dist prev x ≤ fp.max_jerk) ∧
    accJerkChain fp dist x xs

/-- Chained form of `adjacentDistPos` along a list hanging off a previous
point. -/
def posChainFrom (dist : DistFn) : TrajectoryPoint → List TrajectoryPoint → Prop
  | _, [] => True
  | prev, x :: xs => 0 < dist prev.pos x.pos ∧ posChainFrom dist x xs

/-! ## Concrete fixtures used by counterexamples and witnesses -/

/-- A trajectory point on the x-axis with velocity `v` and acceleration `a`. -/
def mkPt (x v a : ℚ) : TrajectoryPoint :=
  { pos := { x := x, y := 0 }, vel := v, acc := a, velAngZ := 0, accAngZ := 0 }

/-- Concrete instantiation of the modelled `calcDistance2d`: `|x₂ - x₁|`,
the exact planar Euclidean distance for points sharing one `y` coordinate
(all fixtures below lie on the x-axis). -/
def distAbsX : DistFn := fun a b => |b.x - a.x|

/-- Concrete instantiation of the modelled stop-distance kinematics for the C1
scenario: every profile reports a stopping distance of `1000` m.  Any
jerk-limited profile that brings `v0 = 1` (or more) down to the target needs
far more room than the `0.001`–`0.002` m budgets of the fixture trajectory, so
only the magnitude matters: the backward filter must reject every candidate. -/
def stopDistHuge : StopDistFn := fun _ _ _ _ _ _ => some (0, [], 1000)

/-- Concrete instantiation of the modelled stop-velocity writer; never reached
in the fixtures (the backward filter fails first). -/
def stopVelNever : StopVelFn := fun _ _ _ _ _ _ _ _ _ _ => none

/-- Parameters of the C1/C3 fixtures: forward bounds `±1` on acceleration and
jerk, `kp = 1`; backward jerks scanned `-1, -2`. -/
def fixParam : Param :=
  { forward := { max_acc := 1, min_acc := -1, max_jerk := 1, min_jerk := -1, kp := 1 }
    backward := { start_jerk := -1, min_jerk_mild_stop := -1/2, min_jerk := -2,
                  span_jerk := -1, min_acc_mild_stop := -1, min_acc := -2 }
    latacc := { enable_constant_velocity_while_turning := false,
                constant_velocity_dist_threshold := 1 } }

/-- Five points, 1 mm apart, with velocity profile `1, -1, 1, 0, 0`: two
deceleration targets `(1, -1)` and `(3, 0)`, the second with a near-zero
target velocity whose backward filter fails, so `apply` runs the
`applyMaxVelocity(0.0, bwd_start_index, size - 1, ...)` fallback with
`bwd_start_index = 1` and returns early. -/
def c1Input : Trajectory :=
  [mkPt 0 1 0, mkPt (1/1000) (-1) 0, mkPt (2/1000) 1 0, mkPt (3/1000) 0 0,
   mkPt (4/1000) 0 0]

/-- The trajectory `apply` returns on the C1 fixture: the fallback caps
velocity and zeroes acceleration from index 1 on, while point 0 keeps the
supplied initial velocity 1 and initial acceleration 1. -/
def c1Out : Trajectory :=
  [mkPt 0 1 1, mkPt (1/1000) 0 0, mkPt (2/1000) 0 0, mkPt (3/1000) 0 0,
   mkPt (4/1000) 0 0]

/-- The C2 divergence fixture's parameters: identical to `fixParam` except
`span_jerk = 0`, so the jerk scan of line 474 retries the same planning jerk
`-1` forever once it fails (`-1 > min_jerk - 0.001 = -2.001` at every
iteration). -/
def c2DivergeParam : Param :=
  { forward := { max_acc := 1, min_acc := -1, max_jerk := 1, min_jerk := -1, kp := 1 }
    backward := { start_jerk := -1, min_jerk_mild_stop := -1/2, min_jerk := -2,
                  span_jerk := 0, min_acc_mild_stop := -1, min_acc := -2 }
    latacc := { enable_constant_velocity_while_turning := false,
                constant_velocity_dist_threshold := 1 } }

/-- The C2 divergence fixture's input: two points 1 mm apart decelerating to
velocity 0, producing the single deceleration target `(1, 0)` whose distance
budget (1 mm) no stopping profile from `v = 1` fits. -/
def c2Input : Trajectory := [mkPt 0 1 0, mkPt (1/1000) 0 0]

/-- The filtered trajectory `apply` holds when it reaches the backward decel
filter for the C2 fixture's only deceleration target: the forward jerk filter
applied from index 0 with initial velocity 1 and initial acceleration 0. -/
def c2Filt1 : Trajectory :=
  applyForwardJerkFilter c2DivergeParam.forward distAbsX c2Input 0 1 0 c2Input

/-- Base parameters of the C5 fixture: no decel distance before the curve, one
index of decel distance after it, lateral-acceleration bound `1`, floor
velocity `1`. -/
def c5bp : BaseParam :=
  { decel_distance_before_curve := 0, decel_distance_after_curve := 1/10,
    max_lateral_accel := 1, min_curve_velocity := 1 }

/-- Three collinear points, 1 m apart, with velocities `2, 9/10, 2`: the
middle point is slower than the floor velocity, so it is never capped, yet its
window curvature is large. -/
def c5Input : Trajectory := [mkPt 0 2 0, mkPt 1 (9/10) 0, mkPt 2 2 0]

/-- The curvature estimate handed to the capping loop in the C5 fixture. -/
def c5cv : List ℚ := [0, 4, 0]

/-- Concrete instantiation of the modelled `std::sqrt` for the C5 fixture.
The run evaluates it at `1/4` (exactly `1/2`) and at `100000`, whose exact
square root `316.22…` is irrational; any value between `2` and the true root
leaves every comparison of the run unchanged, and `316` is used. -/
def c5sqrt : SqrtFn := fun y => if y = 1/4 then 1/2 else 316

/-- Concrete instantiation of the modelled linear interpolation for the C5
fixture: the identity re-gridding (the fixture's arc lengths already lie on
the resampling grid). -/
def c5interp : InterpFn := fun _ t _ => some t

/-- Concrete instantiation of the modelled 3-point curvature estimation for
the C5 fixture. -/
def c5curv : Curv3Fn := fun _ _ => some c5cv

/-- Lateral-acceleration parameters of the C5 fixture: plateau merging off. -/
def c5lp : LataccParam :=
  { enable_constant_velocity_while_turning := false,
    constant_velocity_dist_threshold := 1 }

end AnalyticalJerkConstrainedSmoother

namespace VelocityController

/-- `enum class ControlState { DRIVE = 0, STOPPING, STOPPED, EMERGENCY };` of
`velocity_controller.hpp`. -/
inductive ControlState where
  | DRIVE
  | STOPPING
  | STOPPED
  | EMERGENCY
  deriving DecidableEq, Repr

/-- The in-class member initializer
`ControlState control_state_{ControlState::STOPPED};`: the value
`control_state_` holds before any control cycle has run. -/
def initialControlState : ControlState := ControlState.STOPPED

end VelocityController

namespace AnalyticalJerkConstrainedSmoother

/-! # Theorems -/

/-- Claim C2 (amended): `apply` returns `false` exactly on an empty input
trajectory (`none` models the `false` return, on which the caller's output
argument is untouched); every nonempty input, for every configuration whose
backward `span_jerk` is negative — so that the backward jerk scan terminates
(`jerkSeq_faithful`) — and every behaviour of the modelled external
kinematics, yields a `true` return with an output written.  For
`span_jerk ≥ 0` the program can instead hang in the jerk scan (claim C2's
counterexample `apply_jerk_scan_divergence`). -/
theorem apply_none_iff_empty_input (calcStopDist : StopDistFn)
    (calcStopVelocity : StopVelFn) (dist : DistFn) (p : Param)
    (initial_vel initial_acc : ℚ) (input : Trajectory)
    (_hspan : p.backward.span_jerk < 0) :
    apply calcStopDist calcStopVelocity dist p initial_vel initial_acc input = none ↔
      input = [] := by
  match input with
  | [] => simp [apply]
  | [pt] => simp [apply]
  | a :: b :: rest => simp [apply]

/-- Witness for claim C2's amended theorem: the concrete C1 fixture, whose
`span_jerk` is `-1`. -/
theorem apply_none_iff_empty_input_witness :
    apply stopDistHuge stopVelNever distAbsX fixParam 1 1 c1Input = none ↔
      c1Input = [] :=
  apply_none_iff_empty_input stopDistHuge stopVelNever distAbsX fixParam 1 1
    c1Input (by decide!)

/-- For `span_jerk < 0`, `jerkSeq` is faithful to the C++ scan of line 474:
it lists `scannedJerk p 0, …, scannedJerk p (K-1)` for the unique bound `K`
such that the loop condition `scannedJerk p k > min_jerk - 0.001` holds
exactly for the iterations `k < K`. -/
theorem jerkSeq_faithful (p : Param) (hspan : p.backward.span_jerk < 0) :
    ∃ K, jerkSeq p = (List.range K).map (scannedJerk p) ∧
      ∀ k : Nat, k < K ↔ p.backward.min_jerk - 1 / 1000 < scannedJerk p k := by
  have hpos : (0 : ℚ) < -p.backward.span_jerk := by linarith
  set low := p.backward.min_jerk - 1 / 1000 with hlowdef
  set x : ℚ := (p.backward.start_jerk - low) / (-p.backward.span_jerk) with hxdef
  have hA : ∀ k : Nat, (k < (⌈x⌉).toNat ↔ low < scannedJerk p k) := by
    intro k
    have h1 : low < scannedJerk p k ↔ (k : ℚ) < x := by
      rw [hxdef, lt_div_iff₀ hpos, scannedJerk]
      have hr : (k : ℚ) * -p.backward.span_jerk =
          -((k : ℚ) * p.backward.span_jerk) := by ring
      rw [hr]
      constructor
      · intro h
        linarith
      · intro h
        linarith
    have h2 : ((k : ℤ) < ⌈x⌉) ↔ ((k : ℚ) < x) := by
      rw [Int.lt_ceil]
      push_cast
      exact Iff.rfl
    have h3 : (k < (⌈x⌉).toNat) ↔ ((k : ℤ) < ⌈x⌉) := Int.lt_toNat
    rw [h3, h2, h1]
  refine ⟨(⌈x⌉).toNat, ?_, hA⟩
  rw [jerkSeq, if_pos hspan]
  have hfix : ((⌈(p.backward.start_jerk - (p.backward.min_jerk - 1 / 1000)) /
      (-p.backward.span_jerk)⌉).toNat) = (⌈x⌉).toNat := by
    rw [hxdef, hlowdef]
  rw [hfix]
  apply List.filter_eq_self.mpr
  intro j hj
  rw [List.mem_map] at hj
  obtain ⟨k, hkmem, hkeq⟩ := hj
  rw [List.mem_range] at hkmem
  have hlt := (hA k).mp hkmem
  rw [hkeq] at hlt
  exact decide_eq_true hlt

/-- Claim C2 (counterexample): a nonempty two-point input and a configuration
with `span_jerk = 0` on which `apply` does not yield a `true` return: it
reaches the backward decel filter for the deceleration target `(1, 0)` with
start index `0` (the listed selector equations pin the arguments the program
passes), and there the jerk scan of line 474 diverges — at every iteration
`k` the loop condition holds (`scannedJerk = -1 > -2.001`) and
`calcEnoughDistForDecel` fails (stopping distance `1000` m against a 1 mm
budget), so the loop never exits and `apply` never returns. -/
theorem apply_jerk_scan_divergence :
    c2Input ≠ [] ∧
    searchDecelTargetIndices c2Input 0 = [(1, 0)] ∧
    fwdSelect 1 0 [(1, 0)] c2Input 0 = (0, 1, 0) ∧
    bwdSelect 1 0 [(1, 0)] c2Filt1 0 = (0, 1, 0) ∧
    startIndicesFor 0 0 = [0] ∧
    adjustStart c2Filt1 0 1 0 = 0 ∧
    jerkScanDiverges stopDistHuge c2DivergeParam c2Filt1 0 0
      (dttFun distAbsX c2Filt1 0 1) := by
  have hs : ∀ k : Nat, scannedJerk c2DivergeParam k = -1 := by
    intro k
    simp [scannedJerk, c2DivergeParam]
  refine ⟨by decide!, by decide!, by decide!, by decide!, by decide!, by decide!,
    fun k => ⟨?_, ?_⟩⟩
  · rw [hs k]
    decide!
  · rw [hs k]
    decide!

/-- Claim C7: on a single-point input, `apply` succeeds and returns that point
with only its velocity and acceleration replaced by the supplied initial
velocity and acceleration. -/
theorem apply_single_point (calcStopDist : StopDistFn)
    (calcStopVelocity : StopVelFn) (dist : DistFn) (p : Param)
    (initial_vel initial_acc : ℚ) (pt : TrajectoryPoint) :
    apply calcStopDist calcStopVelocity dist p initial_vel initial_acc [pt] =
      some [{ pt with vel := initial_vel, acc := initial_acc }] := rfl

/-- Claim C6: the time step of the forward filter is the inter-point distance
divided by `max(previous velocity, 1.0)`: the divisor is at least `1`
(whatever the previous velocity, including zero or negative), and multiplying
the time step back by that divisor recovers the distance exactly — `dt` is
never produced by a near-zero division. -/
theorem forwardDt_denominator_ge_one (ds prev_vel : ℚ) :
    1 ≤ max prev_vel 1 ∧ forwardDt ds prev_vel * max prev_vel 1 = ds := by
  have h1 : (1 : ℚ) ≤ max prev_vel 1 := le_max_right _ _
  exact ⟨h1, div_mul_cancel₀ ds (by positivity)⟩

/-- Claim C9: the velocity controller's control state starts as `STOPPED`
before any control cycle has run. -/
theorem initialControlState_eq_STOPPED :
    VelocityController.initialControlState = VelocityController.ControlState.STOPPED :=
  rfl

/-! ### Claim C1: acceleration and jerk bounds of the smoother output -/

/-- Clamping into `[lo, hi]` with `lo ≤ hi` lands inside the interval. -/
theorem clamp_mem {lo hi x : ℚ} (h : lo ≤ hi) :
    lo ≤ max lo (min hi x) ∧ max lo (min hi x) ≤ hi :=
  ⟨le_max_left _ _, max_le h (min_le_left _ _)⟩

/-- Core of one forward-filter step: adding a jerk-clamped increment to an
in-bounds acceleration stays within the acceleration bounds, and the realized
finite-difference jerk is the clamped jerk itself. -/
theorem step_core {mn mx jm jM a L dt : ℚ} (hdt : 0 < dt) (hjm : jm ≤ 0)
    (hjM : 0 ≤ jM) (hL1 : mn ≤ L) (hL2 : L ≤ mx) (ha1 : mn ≤ a) (ha2 : a ≤ mx) :
    (mn ≤ a + max jm (min jM ((L - a) / dt)) * dt ∧
      a + max jm (min jM ((L - a) / dt)) * dt ≤ mx) ∧
    (jm ≤ (a + max jm (min jM ((L - a) / dt)) * dt - a) / dt ∧
      (a + max jm (min jM ((L - a) / dt)) * dt - a) / dt ≤ jM) := by
  have hjmM : jm ≤ jM := hjm.trans hjM
  set fbj := (L - a) / dt with hfbjdef
  set lj := max jm (min jM fbj) with hljdef
  have hlj1 : jm ≤ lj := le_max_left _ _
  have hlj2 : lj ≤ jM := max_le hjmM (min_le_left _ _)
  have hfd : (a + lj * dt - a) / dt = lj := by field_simp
  have hLa : a + fbj * dt = L := by
    rw [hfbjdef]; field_simp
  refine ⟨?_, by rw [hfd]; exact ⟨hlj1, hlj2⟩⟩
  rcases le_total fbj jM with h1 | h1
  · rcases le_total jm fbj with h2 | h2
    · have he : lj = fbj := by rw [hljdef, min_eq_right h1, max_eq_right h2]
      rw [he, hLa]; exact ⟨hL1, hL2⟩
    · have he : lj = jm := by rw [hljdef, min_eq_right h1, max_eq_left h2]
      have hmul : fbj * dt ≤ jm * dt := mul_le_mul_of_nonneg_right h2 hdt.le
      have hneg : jm * dt ≤ 0 := mul_nonpos_iff.mpr (Or.inr ⟨hjm, hdt.le⟩)
      constructor
      · rw [he]; linarith
      · rw [he]; linarith
  · have he : lj = jM := by rw [hljdef, min_eq_left h1, max_eq_right hjmM]
    have hmul : jM * dt ≤ fbj * dt := mul_le_mul_of_nonneg_right h1 hdt.le
    have hpos : 0 ≤ jM * dt := mul_nonneg hjM hdt.le
    constructor
    · rw [he]; linarith
    · rw [he]; linarith

/-- One `fwdStep` over a positive distance keeps the written acceleration in
the forward acceleration bounds and realizes a finite-difference jerk within
the forward jerk bounds. -/
theorem fwdStep_acc_jerk (fp : ForwardParam) (hjm : fp.min_jerk ≤ 0)
    (hjM : 0 ≤ fp.max_jerk) (hab : fp.min_acc ≤ fp.max_acc) (ds v a bv : ℚ)
    (hds : 0 < ds) (ha1 : fp.min_acc ≤ a) (ha2 : a ≤ fp.max_acc) :
    (fp.min_acc ≤ (fwdStep fp ds v a bv).2 ∧ (fwdStep fp ds v a bv).2 ≤ fp.max_acc) ∧
    (fp.min_jerk ≤ ((fwdStep fp ds v a bv).2 - a) / forwardDt ds v ∧
      ((fwdStep fp ds v a bv).2 - a) / forwardDt ds v ≤ fp.max_jerk) := by
  have hdt : 0 < forwardDt ds v :=
    div_pos hds (lt_of_lt_of_le one_pos (le_max_right v 1))
  have hL := clamp_mem
    (x := fp.kp * (bv - (v + a * forwardDt ds v))) hab
  have h := step_core (a := a) hdt hjm hjM hL.1 hL.2 ha1 ha2
  simpa [fwdStep] using h

/-- Invariant of the forward-filter loop over a same-base-and-output tail:
starting from an in-bounds previous acceleration, every written point has an
in-bounds acceleration and an in-bounds finite-difference jerk to its
predecessor. -/
theorem fwdScan_chain (fp : ForwardParam) (dist : DistFn)
    (hjm : fp.min_jerk ≤ 0) (hjM : 0 ≤ fp.max_jerk)
    (hab : fp.min_acc ≤ fp.max_acc) :
    ∀ (rest : List TrajectoryPoint) (prevOut prevBase : TrajectoryPoint),
      prevOut.pos = prevBase.pos →
      fp.min_acc ≤ prevOut.acc → prevOut.acc ≤ fp.max_acc →
      posChainFrom dist prevBase rest →
      accJerkChain fp dist prevOut (fwdScan fp dist prevOut prevBase rest rest) := by
  intro rest
  induction rest with
  | nil =>
    intro prevOut prevBase _ _ _ _
    simp [fwdScan, accJerkChain]
  | cons b bs ih =>
    intro prevOut prevBase hpos ha1 ha2 hchain
    obtain ⟨hd0, htl⟩ := hchain
    have hds : 0 < dist prevOut.pos b.pos := by rw [hpos]; exact hd0
    have hstep := fwdStep_acc_jerk fp hjm hjM hab (dist prevOut.pos b.pos)
      prevOut.vel prevOut.acc b.vel hds ha1 ha2
    simp only [fwdScan, ← hpos]
    refine ⟨⟨hstep.1.1, hstep.1.2⟩, ⟨?_, ?_⟩, ?_⟩
    · simpa [fdJerkPair] using hstep.2.1
    · simpa [fdJerkPair] using hstep.2.2
    · exact ih _ b rfl hstep.1.1 hstep.1.2 htl

/-- A chained bound certificate yields `accWithinBounds` for the whole list. -/
theorem chain_accWithin (fp : ForwardParam) (dist : DistFn) :
    ∀ (l : List TrajectoryPoint) (prev : TrajectoryPoint),
      fp.min_acc ≤ prev.acc → prev.acc ≤ fp.max_acc →
      accJerkChain fp dist prev l → accWithinBounds fp (prev :: l) := by
  intro l
  induction l with
  | nil =>
    intro prev h1 h2 _
    intro pt hpt
    rw [List.mem_singleton] at hpt
    exact hpt ▸ ⟨h1, h2⟩
  | cons x xs ih =>
    intro prev h1 h2 hc
    obtain ⟨hx, _, hrest⟩ := hc
    intro pt hpt
    rcases List.mem_cons.mp hpt with he | hm
    · exact he ▸ ⟨h1, h2⟩
    · exact ih x hx.1 hx.2 hrest pt hm

/-- A chained bound certificate yields `jerkWithinBounds` for the whole list. -/
theorem chain_jerkWithin (fp : ForwardParam) (dist : DistFn) :
    ∀ (l : List TrajectoryPoint) (prev : TrajectoryPoint),
      accJerkChain fp dist prev l → jerkWithinBounds fp dist (prev :: l) := by
  intro l
  induction l with
  | nil =>
    intro prev _ i hi
    simp at hi
  | cons x xs ih =>
    intro prev hc
    obtain ⟨_, hj, hrest⟩ := hc
    intro i hi
    cases i with
    | zero =>
      simpa [fdJerk, fdJerkPair] using hj
    | succ n =>
      have hn : n < (x :: xs).length - 1 := by
        simp only [List.length_cons] at hi ⊢
        omega
      have := ih x hrest n hn
      simpa [fdJerk, List.getD_cons_succ] using this

/-- `adjacentDistPos` in chained form. -/
theorem adjacent_posChainFrom (dist : DistFn) :
    ∀ (xs : List TrajectoryPoint) (x : TrajectoryPoint),
      adjacentDistPos dist (x :: xs) → posChainFrom dist x xs := by
  intro xs
  induction xs with
  | nil => intro x _; trivial
  | cons y ys ih =>
    intro x h
    constructor
    · have := h 0 (by simp)
      simpa using this
    · refine ih y (fun i hi => ?_)
      have hlen : i + 1 < (x :: y :: ys).length - 1 := by
        simp only [List.length_cons] at hi ⊢
        omega
      have := h (i + 1) hlen
      simpa [List.getD_cons_succ] using this

/-- Claim C1 (amended): on any nonempty input with no deceleration targets —
so that none of the backward-filter fallbacks that break the bounds can run —
`apply` succeeds and its output stays within the forward acceleration bounds
and, between every pair of consecutive points, within the forward jerk bounds
(finite difference over the forward filter's time step), provided the bounds
are sane (`min_jerk ≤ 0 ≤ max_jerk`), the initial acceleration is within the
acceleration bounds, and consecutive points are at positive distance. -/
theorem apply_no_decel_target_bounds (calcStopDist : StopDistFn)
    (calcStopVelocity : StopVelFn) (dist : DistFn) (p : Param)
    (initial_vel initial_acc : ℚ) (input : Trajectory)
    (hne : input ≠ [])
    (ht : searchDecelTargetIndices input 0 = [])
    (hjm : p.forward.min_jerk ≤ 0) (hjM : 0 ≤ p.forward.max_jerk)
    (ha1 : p.forward.min_acc ≤ initial_acc) (ha2 : initial_acc ≤ p.forward.max_acc)
    (hd : adjacentDistPos dist input) :
    ∃ out,
      apply calcStopDist calcStopVelocity dist p initial_vel initial_acc input =
        some out ∧
      accWithinBounds p.forward out ∧ jerkWithinBounds p.forward dist out := by
  match input with
  | [] => exact absurd rfl hne
  | [pt] =>
    refine ⟨_, rfl, ?_, ?_⟩
    · intro q hq
      rw [List.mem_singleton] at hq
      exact hq ▸ ⟨ha1, ha2⟩
    · intro i hi
      simp at hi
  | a :: b :: rest =>
    have happly : apply calcStopDist calcStopVelocity dist p initial_vel initial_acc
        (a :: b :: rest) =
        some (applyForwardJerkFilter p.forward dist (a :: b :: rest) 0 initial_vel
          initial_acc (a :: b :: rest)) := by
      simp [apply, ht, applyLoop, finalPass]
    set o1 : TrajectoryPoint := { a with vel := initial_vel, acc := initial_acc }
      with ho1
    have hout : applyForwardJerkFilter p.forward dist (a :: b :: rest) 0 initial_vel
        initial_acc (a :: b :: rest) =
        o1 :: fwdScan p.forward dist o1 a (b :: rest) (b :: rest) := by
      simp [applyForwardJerkFilter, ho1]
    have hchain : accJerkChain p.forward dist o1
        (fwdScan p.forward dist o1 a (b :: rest) (b :: rest)) :=
      fwdScan_chain p.forward dist hjm hjM (ha1.trans ha2) (b :: rest) o1 a
        (by rw [ho1]) (by rw [ho1]; exact ha1) (by rw [ho1]; exact ha2)
        (adjacent_posChainFrom dist (b :: rest) a hd)
    refine ⟨_, happly, ?_, ?_⟩
    · rw [hout]
      exact chain_accWithin p.forward dist _ o1 (by rw [ho1]; exact ha1)
        (by rw [ho1]; exact ha2) hchain
    · rw [hout]
      exact chain_jerkWithin p.forward dist _ o1 hchain

/-- Witness for claim C1's amended theorem: a concrete two-point accelerating
trajectory satisfying every hypothesis. -/
theorem apply_no_decel_target_bounds_witness :
    ∃ out,
      apply stopDistHuge stopVelNever distAbsX fixParam 0 0
        [mkPt 0 1 0, mkPt 1 2 0] = some out ∧
      accWithinBounds fixParam.forward out ∧
      jerkWithinBounds fixParam.forward distAbsX out :=
  apply_no_decel_target_bounds stopDistHuge stopVelNever distAbsX fixParam 0 0
    [mkPt 0 1 0, mkPt 1 2 0] (by decide!) (by decide!) (by decide!) (by decide!)
    (by decide!) (by decide!) (by decide!)

/-- Claim C1 (counterexample): with sane forward bounds (`±1` on acceleration
and jerk), an initial acceleration inside the bounds, positive inter-point
distances and a nonempty input, `apply` succeeds but its output violates the
finite-difference jerk bounds: the near-zero-target fallback zeroes the
acceleration from the backward start index 1 on while point 0 keeps
acceleration 1, a jerk of `-1000` over the 1 mm / `max(1,1)` time step. -/
theorem apply_bounds_counterexample :
    fixParam.forward.min_jerk ≤ 0 ∧ 0 ≤ fixParam.forward.max_jerk ∧
    fixParam.forward.min_acc ≤ 1 ∧ (1 : ℚ) ≤ fixParam.forward.max_acc ∧
    c1Input ≠ [] ∧ adjacentDistPos distAbsX c1Input ∧
    apply stopDistHuge stopVelNever distAbsX fixParam 1 1 c1Input = some c1Out ∧
    ¬ (accWithinBounds fixParam.forward c1Out ∧
       jerkWithinBounds fixParam.forward distAbsX c1Out) := by
  refine ⟨by decide!, by decide!, by decide!, by decide!, by decide!, by decide!,
    by decide!, by decide!⟩

/-! ### Claim C4: deceleration-target detection -/

/-- `specSkipped` shifts past a head element. -/
theorem specSkipped_cons (a : Nat × ℚ) (l : List (Nat × ℚ)) (k : Nat) :
    specSkipped (a :: l) (k + 1) = specSkipped l k := by
  unfold specSkipped
  simp only [List.getD_cons_succ, List.length_cons, decide_eq_decide]
  constructor
  · rintro ⟨h1, h2⟩
    exact ⟨by omega, h2⟩
  · rintro ⟨h1, h2⟩
    exact ⟨by omega, h2⟩

/-- `specPruned` unfolds one head element. -/
theorem specPruned_cons (a : Nat × ℚ) (l : List (Nat × ℚ)) :
    specPruned (a :: l) =
      (if specSkipped (a :: l) 0 then [] else [a]) ++ specPruned l := by
  unfold specPruned
  rw [List.length_cons, List.range_succ_eq_map, List.filter_cons]
  have hmf := List.filter_map (p := fun k => ! specSkipped (a :: l) k) Nat.succ
    (List.range l.length)
  have h1 : ((fun k => ! specSkipped (a :: l) k) ∘ Nat.succ) =
      (fun k => ! specSkipped l k) := by
    funext k
    simp only [Function.comp_apply, Nat.succ_eq_add_one, specSkipped_cons]
  have h2 : ((fun k => (a :: l).getD k (0, 0)) ∘ Nat.succ) =
      (fun k => l.getD k (0, 0)) := by
    funext k
    simp only [Function.comp_apply, Nat.succ_eq_add_one, List.getD_cons_succ]
  cases h0 : specSkipped (a :: l) 0 with
  | false =>
    simp only [h0, Bool.not_false, if_true, List.map_cons, List.getD_cons_zero,
      if_false, Bool.false_eq_true, List.singleton_append]
    rw [hmf, List.map_map, h1, h2]
  | true =>
    simp only [h0, Bool.not_true, if_false, Bool.false_eq_true, if_true,
      List.nil_append]
    rw [hmf, List.map_map, h1, h2]

/-- The coalescing loop of the source equals the claim's positional skip
rule. -/
theorem coalesceTargets_eq_specPruned : ∀ cs, coalesceTargets cs = specPruned cs := by
  intro cs
  induction cs with
  | nil => simp [coalesceTargets, specPruned]
  | cons a l ih =>
    cases l with
    | nil => simp [coalesceTargets, specPruned, specSkipped, List.range_succ]
    | cons b r =>
      rw [coalesceTargets, specPruned_cons, ih]
      congr 1
      have hsk : specSkipped (a :: b :: r) 0 = decide (b.1 - a.1 < 10 ∧ b.2 < a.2) := by
        simp [specSkipped]
      rw [hsk]
      by_cases hc : b.1 - a.1 < 10 ∧ b.2 < a.2
      · simp [hc]
      · simp [hc]

/-- The claim's candidate set equals the source's `tmp_indices`. -/
theorem specCandidates_eq_tmpIndices (t : Trajectory) (c : Nat) :
    specCandidates t c = tmpIndices t c := by
  simp only [specCandidates, tmpIndices]
  have hε : (-(1/100000) : ℚ) = epSearch := by norm_num [epSearch]
  congr 1
  · apply congrArg
    apply List.filter_congr
    intro i _
    have hmax : 1 ≤ max 1 c := le_max_left _ _
    rw [decide_eq_decide]
    unfold isDecelCandidate
    rw [hε]
    constructor
    · rintro ⟨h1, h2, h3, h4⟩
      have h1' : 1 ≤ i := le_trans hmax h1
      exact ⟨h1, by omega, h3, h4⟩
    · rintro ⟨h1, h2, h3, h4⟩
      have h1' : 1 ≤ i := le_trans hmax h1
      exact ⟨h1, by omega, h3, h4⟩
  · rw [show t.length - 1 - 1 = t.length - 2 from by omega, hε]

/-- Claim C4: `searchDecelTargetIndices` returns exactly the local minima of
the velocity profile — interior indices in `[max(1, closest_index), size-2]`
where velocity decreases into the point and does not decrease out of it
(tolerance `1e-5`), plus the final index when velocity decreases into it —
except that a candidate is skipped when the next candidate is fewer than 10
indices later with a strictly lower target velocity (the last candidate is
always kept). -/
theorem searchDecelTargetIndices_eq_spec (t : Trajectory) (c : Nat) :
    searchDecelTargetIndices t c = specPruned (specCandidates t c) := by
  rw [searchDecelTargetIndices, specCandidates_eq_tmpIndices,
    coalesceTargets_eq_specPruned]

/-! ### Claim C8: resampling preserves a uniform velocity profile -/

/-- Claim C8: on an input trajectory whose points all carry the same linear
velocity `v`, for any resample density (and any behaviour of the modelled
pose interpolation and distance), every point of the resampled trajectory
carries velocity `v`: each emitted point copies `tp0.twist.linear.x` from the
segment start, the short-segment branch copies the point itself, and the final
point is the input's last point. -/
theorem resampleTrajectory_uniform_velocity (lerpByPose : LerpPoseFn)
    (dist : DistFn) (num_resample : Nat) (v : ℚ) (input : Trajectory)
    (hne : input ≠ []) (_hnum : 1 ≤ num_resample)
    (hv : ∀ pt ∈ input, pt.vel = v) :
    ∃ out, resampleTrajectory lerpByPose dist num_resample input = some out ∧
      ∀ pt ∈ out, pt.vel = v := by
  match input with
  | [] => exact absurd rfl hne
  | h :: tl =>
    refine ⟨_, rfl, ?_⟩
    intro pt hpt
    rw [List.mem_append] at hpt
    rcases hpt with hseg | hlast
    · rw [List.mem_flatMap] at hseg
      obtain ⟨i, hi, hmem⟩ := hseg
      rw [List.mem_range] at hi
      have hilen : i < (h :: tl).length := by omega
      have htp0 : (h :: tl).getD i dp ∈ h :: tl := by
        rw [List.getD_eq_getElem _ _ hilen]
        exact List.getElem_mem _
      simp only [] at hmem
      split at hmem
      · rw [List.mem_singleton] at hmem
        exact hmem ▸ hv _ htp0
      · rw [List.mem_map] at hmem
        obtain ⟨j, _, hj⟩ := hmem
        rw [← hj]
        simpa using hv _ htp0
    · rw [List.mem_singleton] at hlast
      have hl : (h :: tl).getLastD dp ∈ h :: tl := by
        rw [List.getLastD_eq_getLast?]
        exact List.mem_of_mem_getLast? (by
          rw [List.getLast?_eq_getLast (h :: tl) (by simp)]
          simp)
      exact hlast ▸ hv _ hl

/-- Witness for claim C8: a concrete two-point uniform-velocity trajectory
resampled at density 2. -/
theorem resampleTrajectory_uniform_velocity_witness :
    ∃ out, resampleTrajectory (fun a _ _ => a) distAbsX 2
        [mkPt 0 3 0, mkPt 1 3 0] = some out ∧ ∀ pt ∈ out, pt.vel = 3 :=
  resampleTrajectory_uniform_velocity (fun a _ _ => a) distAbsX 2 3
    [mkPt 0 3 0, mkPt 1 3 0] (by decide!) (by decide!) (by decide!)

/-! ### Claim C3: fallback of `apply` when the backward decel filter fails -/

/-- The velocity-cap rewrite applied to one point by `applyMaxVelocity`. -/
def capPoint (max_velocity : ℚ) (pt : TrajectoryPoint) : TrajectoryPoint :=
  { pt with vel := min pt.vel max_velocity, acc := 0 }

/-- `capLoop` succeeds on an in-bounds range and rewrites exactly the points
of `[i, i + fuel)`. -/
theorem capLoop_spec (max_velocity : ℚ) :
    ∀ (fuel i : Nat) (t : Trajectory), i + fuel ≤ t.length →
      ∃ t2, capLoop max_velocity i fuel t = some t2 ∧ t2.length = t.length ∧
        ∀ k, t2.getD k dp =
          if i ≤ k ∧ k < i + fuel then capPoint max_velocity (t.getD k dp)
          else t.getD k dp := by
  intro fuel
  induction fuel with
  | zero =>
    intro i t _
    refine ⟨t, rfl, rfl, fun k => ?_⟩
    rw [if_neg (by omega)]
  | succ fuel ih =>
    intro i t hlen
    have hi : i < t.length := by omega
    obtain ⟨t2, hrun, hlen2, hk⟩ := ih (i + 1)
      (t.set i { t.get ⟨i, hi⟩ with
        vel := min (t.get ⟨i, hi⟩).vel max_velocity, acc := 0 })
      (by rw [List.length_set]; omega)
    refine ⟨t2, ?_, by rw [hlen2, List.length_set], fun k => ?_⟩
    · rw [capLoop, dif_pos hi]
      exact hrun
    · rw [hk k]
      by_cases hki : k = i
      · subst hki
        rw [if_neg (by omega), if_pos (by omega)]
        rw [List.getD_eq_getElem _ dp (by rw [List.length_set]; exact hi),
          List.getElem_set_self (by rw [List.length_set]; exact hi),
          List.getD_eq_getElem t dp hi]
        rfl
      · have hset : (t.set i { t.get ⟨i, hi⟩ with
            vel := min (t.get ⟨i, hi⟩).vel max_velocity, acc := 0 }).getD k dp =
            t.getD k dp := by
          by_cases hklen : k < t.length
          · rw [List.getD_eq_getElem _ dp (by rw [List.length_set]; exact hklen),
              List.getD_eq_getElem t dp hklen]
            exact List.getElem_set_ne (by omega) _
          · rw [List.getD_eq_default _ _ (by rw [List.length_set]; omega),
              List.getD_eq_default _ _ (by omega)]
        rw [hset]
        by_cases hin : i + 1 ≤ k ∧ k < i + 1 + fuel
        · rw [if_pos hin, if_pos (by omega)]
        · rw [if_neg hin, if_neg (by omega)]

/-- `applyMaxVelocityT` on an in-bounds range `[start_index, end_index]` caps
the velocity (to `min` with the given maximum) and zeroes the acceleration of
exactly the points of that range. -/
theorem applyMaxVelocityT_spec (max_velocity : ℚ) (start_index end_index : Nat)
    (t : Trajectory) (hse : start_index ≤ end_index) (he : end_index < t.length) :
    (applyMaxVelocityT max_velocity start_index end_index t).length = t.length ∧
    ∀ k, (applyMaxVelocityT max_velocity start_index end_index t).getD k dp =
      if start_index ≤ k ∧ k ≤ end_index then capPoint max_velocity (t.getD k dp)
      else t.getD k dp := by
  obtain ⟨t2, hrun, hlen, hk⟩ := capLoop_spec max_velocity
    (end_index + 1 - start_index) start_index t (by omega)
  have hguard : ¬ (end_index < start_index ∨ t.length < end_index) := by omega
  have : applyMaxVelocityT max_velocity start_index end_index t = t2 := by
    rw [applyMaxVelocityT, applyMaxVelocity, if_neg hguard, hrun]
    rfl
  rw [this]
  refine ⟨hlen, fun k => ?_⟩
  rw [hk k]
  by_cases hin : start_index ≤ k ∧ k < start_index + (end_index + 1 - start_index)
  · rw [if_pos hin, if_pos (by omega)]
  · rw [if_neg hin, if_neg (by omega)]

/-- Claim C3: when the backward decel filter fails for the deceleration target
processed at loop iteration `i`, `apply`'s per-target loop does not fail the
cycle: with a near-zero target velocity (`|v| < 0.001`) it returns early with
the filtered trajectory capped to velocity at most `0` (and acceleration `0`)
at every point from the backward start index to the end, earlier points
untouched; otherwise it caps the reference trajectory between the backward
start index and the target index to the target velocity and continues with the
forward jerk filter re-run from the backward start index. -/
theorem apply_backward_failure_fallback (calcStopDist : StopDistFn)
    (calcStopVelocity : StopVelFn) (dist : DistFn) (p : Param)
    (initial_vel initial_acc : ℚ) (targets : List (Nat × ℚ)) (i : Nat)
    (r : Nat × ℚ) (rest : List (Nat × ℚ)) (refT filt0 filt1 : Trajectory)
    (bwd ti : Nat) (bv ba tv : ℚ)
    (hfilt1 : filt1 = applyForwardJerkFilter p.forward dist refT
      (fwdSelect initial_vel initial_acc targets filt0 i).1
      (fwdSelect initial_vel initial_acc targets filt0 i).2.1
      (fwdSelect initial_vel initial_acc targets filt0 i).2.2 filt0)
    (hbsel : bwdSelect initial_vel initial_acc targets filt1 i = (bwd, bv, ba))
    (htarget : targets.getD i (0, 0) = (ti, tv))
    (hfail : applyBackwardDecelFilter calcStopDist calcStopVelocity dist p
      (startIndicesFor bwd (fwdSelect initial_vel initial_acc targets filt0 i).1)
      ti tv filt1 = none)
    (hne : filt1 ≠ []) (hbwd : bwd ≤ filt1.length - 1) :
    (|tv| < 1 / 1000 →
      applyLoop calcStopDist calcStopVelocity dist p initial_vel initial_acc
        targets (r :: rest) i (refT, filt0) =
        applyMaxVelocityT 0 bwd (filt1.length - 1) filt1 ∧
      ∀ k, (applyMaxVelocityT 0 bwd (filt1.length - 1) filt1).getD k dp =
        if bwd ≤ k ∧ k ≤ filt1.length - 1 then capPoint 0 (filt1.getD k dp)
        else filt1.getD k dp) ∧
    (¬ |tv| < 1 / 1000 →
      applyLoop calcStopDist calcStopVelocity dist p initial_vel initial_acc
        targets (r :: rest) i (refT, filt0) =
        applyLoop calcStopDist calcStopVelocity dist p initial_vel initial_acc
          targets rest (i + 1)
          (applyMaxVelocityT tv bwd ti refT,
           applyForwardJerkFilter p.forward dist (applyMaxVelocityT tv bwd ti refT)
             bwd bv ba filt1) ∧
      (bwd ≤ ti → ti < refT.length →
        ∀ k, (applyMaxVelocityT tv bwd ti refT).getD k dp =
          if bwd ≤ k ∧ k ≤ ti then capPoint tv (refT.getD k dp)
          else refT.getD k dp)) := by
  have hstep : applyTargetStep calcStopDist calcStopVelocity dist p initial_vel
      initial_acc targets i (refT, filt0) =
      (if |tv| < 1 / 1000 then
        Sum.inr (applyMaxVelocityT 0 bwd (filt1.length - 1) filt1)
      else
        Sum.inl (applyMaxVelocityT tv bwd ti refT,
          applyForwardJerkFilter p.forward dist (applyMaxVelocityT tv bwd ti refT)
            bwd bv ba filt1)) := by
    rw [applyTargetStep]
    simp only [← hfilt1, hbsel, htarget, hfail]
  have hlen0 : 0 < filt1.length := List.length_pos.mpr hne
  constructor
  · intro htv
    constructor
    · rw [applyLoop, hstep, if_pos htv]
    · exact (applyMaxVelocityT_spec 0 bwd (filt1.length - 1) filt1 hbwd
        (by omega)).2
  · intro htv
    constructor
    · rw [applyLoop, hstep, if_neg htv]
    · intro hbt hti
      exact (applyMaxVelocityT_spec tv bwd ti refT hbt hti).2

/-- Witness for claim C3: one concrete loop iteration whose backward filter
fails on a zero target velocity, exercising the early-return cap fallback. -/
theorem apply_backward_failure_fallback_witness :
    (|(0 : ℚ)| < 1 / 1000 →
      applyLoop stopDistHuge stopVelNever distAbsX fixParam 1 0 [(1, 0)]
        [(1, 0)] 0 ([mkPt 0 1 0, mkPt (1/1000) 0 0], [mkPt 0 1 0, mkPt (1/1000) 0 0]) =
        applyMaxVelocityT 0 0
          ((applyForwardJerkFilter fixParam.forward distAbsX
            [mkPt 0 1 0, mkPt (1/1000) 0 0] 0 1 0
            [mkPt 0 1 0, mkPt (1/1000) 0 0]).length - 1)
          (applyForwardJerkFilter fixParam.forward distAbsX
            [mkPt 0 1 0, mkPt (1/1000) 0 0] 0 1 0
            [mkPt 0 1 0, mkPt (1/1000) 0 0]) ∧
      ∀ k, (applyMaxVelocityT 0 0
          ((applyForwardJerkFilter fixParam.forward distAbsX
            [mkPt 0 1 0, mkPt (1/1000) 0 0] 0 1 0
            [mkPt 0 1 0, mkPt (1/1000) 0 0]).length - 1)
          (applyForwardJerkFilter fixParam.forward distAbsX
            [mkPt 0 1 0, mkPt (1/1000) 0 0] 0 1 0
            [mkPt 0 1 0, mkPt (1/1000) 0 0])).getD k dp =
        if 0 ≤ k ∧ k ≤ (applyForwardJerkFilter fixParam.forward distAbsX
            [mkPt 0 1 0, mkPt (1/1000) 0 0] 0 1 0
            [mkPt 0 1 0, mkPt (1/1000) 0 0]).length - 1 then
          capPoint 0 ((applyForwardJerkFilter fixParam.forward distAbsX
            [mkPt 0 1 0, mkPt (1/1000) 0 0] 0 1 0
            [mkPt 0 1 0, mkPt (1/1000) 0 0]).getD k dp)
        else (applyForwardJerkFilter fixParam.forward distAbsX
            [mkPt 0 1 0, mkPt (1/1000) 0 0] 0 1 0
            [mkPt 0 1 0, mkPt (1/1000) 0 0]).getD k dp) ∧
    (¬ |(0 : ℚ)| < 1 / 1000 →
      applyLoop stopDistHuge stopVelNever distAbsX fixParam 1 0 [(1, 0)]
        [(1, 0)] 0 ([mkPt 0 1 0, mkPt (1/1000) 0 0], [mkPt 0 1 0, mkPt (1/1000) 0 0]) =
        applyLoop stopDistHuge stopVelNever distAbsX fixParam 1 0 [(1, 0)] [] 1
          (applyMaxVelocityT 0 0 1 [mkPt 0 1 0, mkPt (1/1000) 0 0],
           applyForwardJerkFilter fixParam.forward distAbsX
             (applyMaxVelocityT 0 0 1 [mkPt 0 1 0, mkPt (1/1000) 0 0]) 0 1 0
             (applyForwardJerkFilter fixParam.forward distAbsX
               [mkPt 0 1 0, mkPt (1/1000) 0 0] 0 1 0
               [mkPt 0 1 0, mkPt (1/1000) 0 0])) ∧
      (0 ≤ 1 → 1 < ([mkPt 0 1 0, mkPt (1/1000) 0 0] : Trajectory).length →
        ∀ k, (applyMaxVelocityT 0 0 1 [mkPt 0 1 0, mkPt (1/1000) 0 0]).getD k dp =
          if 0 ≤ k ∧ k ≤ 1 then
            capPoint 0 (([mkPt 0 1 0, mkPt (1/1000) 0 0] : Trajectory).getD k dp)
          else ([mkPt 0 1 0, mkPt (1/1000) 0 0] : Trajectory).getD k dp)) :=
  apply_backward_failure_fallback stopDistHuge stopVelNever distAbsX fixParam 1 0
    [(1, 0)] 0 (1, 0) [] [mkPt 0 1 0, mkPt (1/1000) 0 0]
    [mkPt 0 1 0, mkPt (1/1000) 0 0] _ 0 1 1 0 0 rfl (by decide!) rfl (by decide!)
    (by decide!) (by decide!)

/-! ### Claim C5: lateral-acceleration filter -/

/-- `mapWithIndex` preserves length. -/
theorem mapWithIndex_length (f : Nat → TrajectoryPoint → TrajectoryPoint) :
    ∀ (l : List TrajectoryPoint) (s : Nat), (mapWithIndex f s l).length = l.length := by
  intro l
  induction l with
  | nil => intro s; rfl
  | cons x xs ih =>
    intro s
    simp [mapWithIndex, ih]

/-- `mapWithIndex` rewrites each in-range element from its index. -/
theorem mapWithIndex_getD (f : Nat → TrajectoryPoint → TrajectoryPoint) :
    ∀ (l : List TrajectoryPoint) (s k : Nat), k < l.length →
      (mapWithIndex f s l).getD k dp = f (s + k) (l.getD k dp) := by
  intro l
  induction l with
  | nil =>
    intro s k hk
    simp at hk
  | cons x xs ih =>
    intro s k hk
    cases k with
    | zero => simp [mapWithIndex]
    | succ n =>
      have hn : n < xs.length := by simpa using hk
      simp only [mapWithIndex, List.getD_cons_succ]
      rw [ih (s + 1) n hn]
      congr 1
      omega

/-- A left fold of `max` never goes below its start value. -/
theorem foldl_max_init_le : ∀ (l : List ℚ) (a : ℚ), a ≤ l.foldl max a := by
  intro l
  induction l with
  | nil => intro a; exact le_refl a
  | cons x xs ih => intro a; exact le_trans (le_max_left a x) (ih (max a x))

/-- The window curvature starts its fold at `0.0`, so it is nonnegative. -/
theorem windowCurvature_nonneg (curvature_v : List ℚ) (n before after i : Nat) :
    0 ≤ windowCurvature curvature_v n before after i :=
  foldl_max_init_le _ 0

/-- A nonnegative velocity not exceeding `v_curvature_max` satisfies
`v² ⬝ κ ≤ A` — unless it hides below the floor velocity. -/
theorem capped_vel_bound (sqrtQ : SqrtFn) (A floor κ v : ℚ)
    (hsq : ∀ y, 0 ≤ y → 0 ≤ sqrtQ y ∧ sqrtQ y ^ 2 ≤ y)
    (hA : 0 ≤ A) (hv0 : 0 ≤ v)
    (hv : v ≤ vCurvatureMax sqrtQ A floor κ) :
    v ^ 2 * κ ≤ A ∨ v ≤ floor := by
  by_cases hf : v ≤ floor
  · exact Or.inr hf
  · left
    push_neg at hf
    have hκ' : (0 : ℚ) < max κ (1 / 100000) :=
      lt_of_lt_of_le (by norm_num) (le_max_right _ _)
    have hy : 0 ≤ A / max κ (1 / 100000) := div_nonneg hA hκ'.le
    obtain ⟨hs0, hs2⟩ := hsq _ hy
    have hvs : v ≤ sqrtQ (A / max κ (1 / 100000)) := by
      rcases le_max_iff.mp hv with h | h
      · exact h
      · exact absurd h (not_le.mpr hf)
    have hv2 : v ^ 2 ≤ A / max κ (1 / 100000) :=
      le_trans (pow_le_pow_left₀ hv0 hvs 2) hs2
    have h1 : v ^ 2 * κ ≤ v ^ 2 * max κ (1 / 100000) :=
      mul_le_mul_of_nonneg_left (le_max_left _ _) (sq_nonneg v)
    have h2 : v ^ 2 * max κ (1 / 100000) ≤ (A / max κ (1 / 100000)) * max κ (1 / 100000) :=
      mul_le_mul_of_nonneg_right hv2 hκ'.le
    rw [div_mul_cancel₀ A (ne_of_gt hκ')] at h2
    linarith

/-- In a list of pairwise-disjoint index ranges, `find?` run by the
assignment loop returns exactly the (unique) range covering `k`. -/
theorem find_covering (enable : Bool) (k : Nat) :
    ∀ (ranges : List (Nat × Nat × ℚ)),
      List.Pairwise (fun a b : Nat × Nat × ℚ => a.2.1 < b.1) ranges →
      ∀ r ∈ ranges, r.1 ≤ k → k ≤ r.2.1 → enable = true →
      ranges.find? (fun r2 => decide (r2.1 ≤ k ∧ k ≤ r2.2.1 ∧ enable = true)) =
        some r := by
  intro ranges
  induction ranges with
  | nil =>
    intro _ r hr
    simp at hr
  | cons r0 rest ih =>
    intro hp r hr hk1 hk2 hen
    rcases List.mem_cons.mp hr with he | hm
    · subst he
      rw [List.find?_cons_of_pos]
      simp [hk1, hk2, hen]
    · have h0r : r0.2.1 < r.1 := (List.pairwise_cons.mp hp).1 r hm
      rw [List.find?_cons_of_neg]
      · exact ih (List.pairwise_cons.mp hp).2 r hm hk1 hk2 hen
      · simp only [decide_eq_true_eq, not_and]
        intro _ hc2
        omega

/-- Shape of the groups produced by the grouping loop: every range starts at
or after the open group's start, starts are at most ends, and successive
ranges are disjoint (each ends strictly before the next starts). -/
theorem lataccGroupsGo_shape (dist : DistFn) (t : Trajectory) (thr : ℚ) :
    ∀ (rest : List Nat) (s e : Nat) (m : ℚ), s ≤ e →
      (∀ j ∈ rest, e < j) → List.Pairwise (· < ·) rest →
      (∀ r ∈ lataccGroupsGo dist t thr s e m rest, s ≤ r.1 ∧ r.1 ≤ r.2.1) ∧
      List.Pairwise (fun a b : Nat × Nat × ℚ => a.2.1 < b.1)
        (lataccGroupsGo dist t thr s e m rest) := by
  intro rest
  induction rest with
  | nil =>
    intro s e m hse _ _
    rw [lataccGroupsGo]
    constructor
    · intro r hr
      rw [List.mem_singleton] at hr
      subst hr
      exact ⟨le_refl _, hse⟩
    · exact List.pairwise_singleton _ _
  | cons j rest ih =>
    intro s e m hse hgt hp
    have hej : e < j := hgt j (List.mem_cons_self _ _)
    have hrest_gt : ∀ k ∈ rest, j < k := fun k hk => (List.pairwise_cons.mp hp).1 k hk
    have hp2 := (List.pairwise_cons.mp hp).2
    rw [lataccGroupsGo]
    split
    · exact ih s j (min ((t.getD j dp).vel) m) (by omega) hrest_gt hp2
    · obtain ⟨hall, hpw⟩ := ih j j ((t.getD j dp).vel) (le_refl j) hrest_gt hp2
      constructor
      · intro r hr
        rcases List.mem_cons.mp hr with he | hm
        · subst he
          exact ⟨le_refl _, hse⟩
        · obtain ⟨h1, h2⟩ := hall r hm
          exact ⟨by omega, h2⟩
      · rw [List.pairwise_cons]
        refine ⟨fun r hm => ?_, hpw⟩
        have := (hall r hm).1
        show e < r.1
        omega

/-- Minimum property of the groups: each produced range's velocity is attained
at some member index inside the range and is a lower bound for the capped
velocity of every member index inside the range (members are the open group's
collected indices plus the remaining filtered indices). -/
theorem lataccGroupsGo_min (dist : DistFn) (t : Trajectory) (thr : ℚ) :
    ∀ (rest : List Nat) (s e : Nat) (m : ℚ) (mem : List Nat), s ≤ e →
      (∀ j ∈ mem, s ≤ j ∧ j ≤ e) →
      (∃ j ∈ mem, (t.getD j dp).vel = m) →
      (∀ j ∈ mem, m ≤ (t.getD j dp).vel) →
      (∀ j ∈ rest, e < j) → List.Pairwise (· < ·) rest →
      ∀ r ∈ lataccGroupsGo dist t thr s e m rest,
        (∃ j, (j ∈ mem ∨ j ∈ rest) ∧ r.1 ≤ j ∧ j ≤ r.2.1 ∧
          (t.getD j dp).vel = r.2.2) ∧
        (∀ j, (j ∈ mem ∨ j ∈ rest) → r.1 ≤ j → j ≤ r.2.1 →
          r.2.2 ≤ (t.getD j dp).vel) := by
  intro rest
  induction rest with
  | nil =>
    intro s e m mem _ hm1 hm2 hm3 _ _ r hr
    rw [lataccGroupsGo, List.mem_singleton] at hr
    subst hr
    obtain ⟨j0, hj0mem, hj0eq⟩ := hm2
    constructor
    · exact ⟨j0, Or.inl hj0mem, (hm1 j0 hj0mem).1, (hm1 j0 hj0mem).2, hj0eq⟩
    · rintro j (hj | hj) _ _
      · exact hm3 j hj
      · simp at hj
  | cons j rest ih =>
    intro s e m mem hse hm1 hm2 hm3 hgt hp
    have hej : e < j := hgt j (List.mem_cons_self _ _)
    have hrest_gt : ∀ k ∈ rest, j < k := fun k hk => (List.pairwise_cons.mp hp).1 k hk
    have hp2 := (List.pairwise_cons.mp hp).2
    rw [lataccGroupsGo]
    split
    · -- merge `j` into the open group
      intro r hr
      have hres := ih s j (min ((t.getD j dp).vel) m) (mem ++ [j]) (by omega)
        (by
          intro k hk
          rcases List.mem_append.mp hk with h | h
          · obtain ⟨h1, h2⟩ := hm1 k h
            exact ⟨h1, by omega⟩
          · rw [List.mem_singleton] at h
            subst h
            exact ⟨by omega, le_refl _⟩)
        (by
          rcases le_total ((t.getD j dp).vel) m with h | h
          · exact ⟨j, List.mem_append.mpr (Or.inr (List.mem_singleton.mpr rfl)),
              (min_eq_left h).symm ▸ rfl⟩
          · obtain ⟨j0, hj0, he⟩ := hm2
            refine ⟨j0, List.mem_append.mpr (Or.inl hj0), ?_⟩
            rw [min_eq_right h]
            exact he)
        (by
          intro k hk
          rcases List.mem_append.mp hk with h | h
          · exact le_trans (min_le_right _ _) (hm3 k h)
          · rw [List.mem_singleton] at h
            subst h
            exact min_le_left _ _)
        hrest_gt hp2 r hr
      constructor
      · obtain ⟨j1, hj1, h1, h2, h3⟩ := hres.1
        refine ⟨j1, ?_, h1, h2, h3⟩
        rcases hj1 with h | h
        · rcases List.mem_append.mp h with h | h
          · exact Or.inl h
          · rw [List.mem_singleton] at h
            exact Or.inr (h ▸ List.mem_cons_self _ _)
        · exact Or.inr (List.mem_cons_of_mem _ h)
      · intro j1 hj1 h1 h2
        refine hres.2 j1 ?_ h1 h2
        rcases hj1 with h | h
        · exact Or.inl (List.mem_append.mpr (Or.inl h))
        · rcases List.mem_cons.mp h with h | h
          · have hkj : j1 ∈ [j] := by rw [h]; exact List.mem_singleton.mpr rfl
            exact Or.inl (List.mem_append.mpr (Or.inr hkj))
          · exact Or.inr h
    · -- flush the open group and start a new one at `j`
      intro r hr
      rcases List.mem_cons.mp hr with he | hm
      · subst he
        constructor
        · obtain ⟨j0, hj0, heq⟩ := hm2
          exact ⟨j0, Or.inl hj0, (hm1 j0 hj0).1, (hm1 j0 hj0).2, heq⟩
        · rintro k (hk | hk) h1 h2
          · exact hm3 k hk
          · exfalso
            rcases List.mem_cons.mp hk with h | h
            · subst h
              revert h2
              show ¬ k ≤ e
              omega
            · have := hrest_gt k h
              revert h2
              show ¬ k ≤ e
              omega
      · have hres := ih j j ((t.getD j dp).vel) [j] (le_refl j)
          (by
            intro k hk
            rw [List.mem_singleton] at hk
            subst hk
            exact ⟨le_refl _, le_refl _⟩)
          ⟨j, List.mem_singleton.mpr rfl, rfl⟩
          (by
            intro k hk
            rw [List.mem_singleton] at hk
            subst hk
            exact le_refl _)
          hrest_gt hp2 r hm
        have hshape := (lataccGroupsGo_shape dist t thr rest j j ((t.getD j dp).vel)
          (le_refl j) hrest_gt hp2).1 r hm
        constructor
        · obtain ⟨j1, hj1, h1, h2, h3⟩ := hres.1
          refine ⟨j1, ?_, h1, h2, h3⟩
          rcases hj1 with h | h
          · rw [List.mem_singleton] at h
            exact Or.inr (h ▸ List.mem_cons_self _ _)
          · exact Or.inr (List.mem_cons_of_mem _ h)
        · rintro k (hk | hk) h1 h2
          · exfalso
            have h3 := (hm1 k hk).2
            have h4 := hshape.1
            omega
          · rcases List.mem_cons.mp hk with h | h
            · have hkj : k ∈ [j] := by rw [h]; exact List.mem_singleton.mpr rfl
              exact hres.2 k (Or.inl hkj) h1 h2
            · exact hres.2 k (Or.inr h) h1 h2

/-- Claim C5 (amended): for every input with at least 3 points — with the
modelled interpolation and curvature estimation succeeding, the modelled
square root a nonnegative under-approximation of the square root, and
nonnegative interpolated velocities — every point of the filter's output
satisfies `v² ⬝ κ ≤ |max_lateral_accel|` for its window curvature `κ`, or has
velocity at most (not necessarily equal to) the floor `min_curve_velocity`,
or — when `enable_constant_velocity_while_turning` — was overwritten by a
merged plateau range; when enabled, every point inside a plateau range
carries that range's single velocity, which is the minimum capped velocity
over the capped indices of the group. -/
theorem applyLateralAccelerationFilter_amended (sqrtQ : SqrtFn)
    (interp : InterpFn) (curv3 : Curv3Fn) (dist : DistFn) (bp : BaseParam)
    (lp : LataccParam) (input mid : Trajectory) (curvature_v : List ℚ)
    (hlen : 3 ≤ input.length)
    (hinterp : interp (calcArclengthArray dist input) input
      (outArclength ((calcArclengthArray dist input).getLastD 0)) = some mid)
    (hcurv : curv3 (setLastTwist input mid) curvIdxDist = some curvature_v)
    (hsq : ∀ y, 0 ≤ y → 0 ≤ sqrtQ y ∧ sqrtQ y ^ 2 ≤ y)
    (hvel : ∀ pt ∈ setLastTwist input mid, 0 ≤ pt.vel) :
    ∃ out,
      applyLateralAccelerationFilter sqrtQ interp curv3 dist bp lp input =
        some out ∧
      out.length = (setLastTwist input mid).length ∧
      (∀ k < out.length,
        (out.getD k dp).vel ^ 2 *
            windowCurvature curvature_v (setLastTwist input mid).length
              (lataccBefore bp) (lataccAfter bp) k ≤ |bp.max_lateral_accel| ∨
        (out.getD k dp).vel ≤ bp.min_curve_velocity ∨
        (lp.enable_constant_velocity_while_turning = true ∧
          ∃ r ∈ lataccRangesOf sqrtQ dist bp lp curvature_v (setLastTwist input mid),
            r.1 ≤ k ∧ k ≤ r.2.1 ∧ (out.getD k dp).vel = r.2.2)) ∧
      (lp.enable_constant_velocity_while_turning = true →
        ∀ r ∈ lataccRangesOf sqrtQ dist bp lp curvature_v (setLastTwist input mid),
          ∀ k, r.1 ≤ k → k ≤ r.2.1 → k < out.length →
            (out.getD k dp).vel = r.2.2) ∧
      (∀ r ∈ lataccRangesOf sqrtQ dist bp lp curvature_v (setLastTwist input mid),
        (∃ j ∈ (lataccCappedOf sqrtQ bp curvature_v (setLastTwist input mid)).2,
          r.1 ≤ j ∧ j ≤ r.2.1 ∧
          ((lataccCappedOf sqrtQ bp curvature_v (setLastTwist input mid)).1.getD j
            dp).vel = r.2.2) ∧
        (∀ j ∈ (lataccCappedOf sqrtQ bp curvature_v (setLastTwist input mid)).2,
          r.1 ≤ j → j ≤ r.2.1 →
          r.2.2 ≤ ((lataccCappedOf sqrtQ bp curvature_v
            (setLastTwist input mid)).1.getD j dp).vel)) := by
  have hfilter : applyLateralAccelerationFilter sqrtQ interp curv3 dist bp lp input =
      some (lataccAssign lp.enable_constant_velocity_while_turning
        (lataccRangesOf sqrtQ dist bp lp curvature_v (setLastTwist input mid))
        (lataccCappedOf sqrtQ bp curvature_v (setLastTwist input mid)).1) := by
    cases input with
    | nil => simp at hlen
    | cons a tl =>
      simp only [applyLateralAccelerationFilter]
      rw [if_neg (not_lt.mpr hlen)]
      simp only [hinterp, hcurv]
  set mid2 := setLastTwist input mid with hmid2def
  set capped := lataccCappedOf sqrtQ bp curvature_v mid2 with hcappeddef
  set ranges := lataccRangesOf sqrtQ dist bp lp curvature_v mid2 with hrangesdef
  set out := lataccAssign lp.enable_constant_velocity_while_turning ranges capped.1
    with houtdef
  have hlen1 : out.length = capped.1.length := mapWithIndex_length _ capped.1 0
  have hlen2 : capped.1.length = mid2.length := mapWithIndex_length _ mid2 0
  have hvnn : ∀ i, 0 ≤ lataccVmax sqrtQ bp curvature_v mid2.length (lataccBefore bp)
      (lataccAfter bp) i := by
    intro i
    have hy : (0 : ℚ) ≤ |bp.max_lateral_accel| /
        max (windowCurvature curvature_v mid2.length (lataccBefore bp)
          (lataccAfter bp) i) (1 / 100000) :=
      div_nonneg (abs_nonneg _) (le_trans (by norm_num) (le_max_right _ _))
    simp only [lataccVmax, vCurvatureMax]
    exact le_trans (hsq _ hy).1 (le_max_left _ _)
  have hcapped_pt : ∀ k, k < mid2.length →
      capped.1.getD k dp =
        if lataccVmax sqrtQ bp curvature_v mid2.length (lataccBefore bp)
            (lataccAfter bp) k < (mid2.getD k dp).vel then
          { mid2.getD k dp with
            vel := (lataccVmax sqrtQ bp curvature_v mid2.length (lataccBefore bp)
              (lataccAfter bp) k) }
        else mid2.getD k dp := by
    intro k hk
    have h := mapWithIndex_getD (fun i pt =>
      if lataccVmax sqrtQ bp curvature_v mid2.length (lataccBefore bp)
          (lataccAfter bp) i < pt.vel then
        { pt with vel := (lataccVmax sqrtQ bp curvature_v mid2.length
            (lataccBefore bp) (lataccAfter bp) i) }
      else pt) mid2 0 k hk
    rw [Nat.zero_add] at h
    exact h
  have hv0v : ∀ k, k < mid2.length →
      0 ≤ (capped.1.getD k dp).vel ∧
      (capped.1.getD k dp).vel ≤ lataccVmax sqrtQ bp curvature_v mid2.length
        (lataccBefore bp) (lataccAfter bp) k := by
    intro k hk
    rw [hcapped_pt k hk]
    rcases lt_or_le (lataccVmax sqrtQ bp curvature_v mid2.length (lataccBefore bp)
        (lataccAfter bp) k) ((mid2.getD k dp).vel) with hlt | hle
    · rw [if_pos hlt]
      exact ⟨hvnn k, le_refl _⟩
    · rw [if_neg (not_lt.mpr hle)]
      refine ⟨?_, hle⟩
      apply hvel
      rw [List.getD_eq_getElem mid2 dp hk]
      exact List.getElem_mem _
  have hfps_sorted : List.Pairwise (· < ·) capped.2 :=
    List.Pairwise.sublist (List.filter_sublist _) (List.pairwise_lt_range _)
  have hrprops : (∀ r ∈ ranges, r.1 ≤ r.2.1) ∧
      List.Pairwise (fun a b : Nat × Nat × ℚ => a.2.1 < b.1) ranges ∧
      (∀ r ∈ ranges,
        (∃ j ∈ capped.2, r.1 ≤ j ∧ j ≤ r.2.1 ∧
          (capped.1.getD j dp).vel = r.2.2) ∧
        (∀ j ∈ capped.2, r.1 ≤ j → j ≤ r.2.1 →
          r.2.2 ≤ (capped.1.getD j dp).vel)) := by
    have hre : ranges = lataccGroups dist capped.1
        lp.constant_velocity_dist_threshold capped.2 := rfl
    rcases hc2 : capped.2 with _ | ⟨j, rest⟩
    · rw [hre, hc2]
      refine ⟨?_, ?_, ?_⟩ <;> simp [lataccGroups]
    · have hsorted2 : List.Pairwise (· < ·) (j :: rest) := hc2 ▸ hfps_sorted
      have hgt : ∀ k ∈ rest, j < k :=
        fun k hk => (List.pairwise_cons.mp hsorted2).1 k hk
      have hp2 := (List.pairwise_cons.mp hsorted2).2
      have hgo : ranges = lataccGroupsGo dist capped.1
          lp.constant_velocity_dist_threshold j j ((capped.1.getD j dp).vel) rest := by
        rw [hre, hc2, lataccGroups]
      have hshape := lataccGroupsGo_shape dist capped.1
        lp.constant_velocity_dist_threshold rest j j ((capped.1.getD j dp).vel)
        (le_refl j) hgt hp2
      have hmin := lataccGroupsGo_min dist capped.1
        lp.constant_velocity_dist_threshold rest j j ((capped.1.getD j dp).vel) [j]
        (le_refl j)
        (by
          intro k hk
          rw [List.mem_singleton] at hk
          subst hk
          exact ⟨le_refl _, le_refl _⟩)
        ⟨j, List.mem_singleton.mpr rfl, rfl⟩
        (by
          intro k hk
          rw [List.mem_singleton] at hk
          subst hk
          exact le_refl _)
        hgt hp2
      refine ⟨?_, ?_, ?_⟩
      · intro r hr
        exact ((hshape.1) r (hgo ▸ hr)).2
      · rw [hgo]
        exact hshape.2
      · intro r hr
        obtain ⟨hatt, hlow⟩ := hmin r (hgo ▸ hr)
        constructor
        · obtain ⟨j1, hj1, h1, h2, h3⟩ := hatt
          have hmemc : j1 ∈ j :: rest := by
            rcases hj1 with h | h
            · rw [List.mem_singleton] at h
              subst h
              exact List.mem_cons_self _ _
            · exact List.mem_cons_of_mem _ h
          exact ⟨j1, hmemc, h1, h2, h3⟩
        · intro j1 hj1 h1 h2
          refine hlow j1 ?_ h1 h2
          have hj1b : j1 ∈ j :: rest := hc2 ▸ hj1
          rcases List.mem_cons.mp hj1b with h | h
          · subst h
            exact Or.inl (List.mem_singleton.mpr rfl)
          · exact Or.inr h
  have hassign_pt : ∀ k, k < capped.1.length →
      out.getD k dp =
        (match ranges.find? (fun r2 => decide (r2.1 ≤ k ∧ k ≤ r2.2.1 ∧
            lp.enable_constant_velocity_while_turning = true)) with
         | some r => { capped.1.getD k dp with vel := r.2.2 }
         | none => capped.1.getD k dp) := by
    intro k hk
    have h := mapWithIndex_getD (fun i pt =>
      match ranges.find? (fun r2 => decide (r2.1 ≤ i ∧ i ≤ r2.2.1 ∧
          lp.enable_constant_velocity_while_turning = true)) with
       | some r => { pt with vel := r.2.2 }
       | none => pt) capped.1 0 k hk
    rw [Nat.zero_add] at h
    exact h
  refine ⟨out, hfilter, by rw [hlen1, hlen2], ?_, ?_, hrprops.2.2⟩
  · -- per-point bound, floor, or plateau overwrite
    intro k hk
    have hkc : k < capped.1.length := by omega
    have hkm : k < mid2.length := by omega
    rw [hassign_pt k hkc]
    rcases hfind : ranges.find? (fun r2 => decide (r2.1 ≤ k ∧ k ≤ r2.2.1 ∧
        lp.enable_constant_velocity_while_turning = true)) with _ | r
    · -- not overwritten: the capped velocity obeys the bound or hides below floor
      simp only [hfind]
      obtain ⟨hnn, hle⟩ := hv0v k hkm
      have hb := capped_vel_bound sqrtQ |bp.max_lateral_accel| bp.min_curve_velocity
        (windowCurvature curvature_v mid2.length (lataccBefore bp) (lataccAfter bp) k)
        ((capped.1.getD k dp).vel) hsq (abs_nonneg _) hnn hle
      rcases hb with hb | hb
      · exact Or.inl hb
      · exact Or.inr (Or.inl hb)
    · -- overwritten by the first covering plateau range
      simp only [hfind]
      right
      right
      have hmemr := List.mem_of_find?_eq_some hfind
      have hprop := List.find?_some hfind
      simp only [decide_eq_true_eq] at hprop
      exact ⟨hprop.2.2, r, hmemr, hprop.1, hprop.2.1, rfl⟩
  · -- every point inside a plateau range carries the range's velocity
    intro hen r hr k hk1 hk2 hkl
    have hkc : k < capped.1.length := by omega
    simp only [hassign_pt k hkc,
      find_covering lp.enable_constant_velocity_while_turning k ranges
        hrprops.2.1 r hr hk1 hk2 hen]

/-- Claim C5 (counterexample): with plateau merging disabled, an uncapped
point whose velocity lies strictly between `sqrt(A/κ)` and the floor velocity
violates the claim as stated: it has `v² ⬝ κ > max_lateral_accel` yet its
velocity does not equal `min_curve_velocity`. -/
theorem applyLateralAccelerationFilter_floor_counterexample :
    ∃ out,
      applyLateralAccelerationFilter c5sqrt c5interp c5curv distAbsX c5bp c5lp
        c5Input = some out ∧
      ¬ lataccClaimAsStated c5bp c5cv (lataccBefore c5bp) (lataccAfter c5bp) out := by
  refine ⟨c5Input, by decide!, by decide!⟩

/-- Witness for claim C5's amended theorem: the concrete fixture with the
all-zero under-approximating square root. -/
theorem applyLateralAccelerationFilter_amended_witness :
    ∃ out,
      applyLateralAccelerationFilter (fun _ => 0) c5interp c5curv distAbsX c5bp
        c5lp c5Input = some out ∧
      out.length = (setLastTwist c5Input c5Input).length ∧
      (∀ k < out.length,
        (out.getD k dp).vel ^ 2 *
            windowCurvature c5cv (setLastTwist c5Input c5Input).length
              (lataccBefore c5bp) (lataccAfter c5bp) k ≤ |c5bp.max_lateral_accel| ∨
        (out.getD k dp).vel ≤ c5bp.min_curve_velocity ∨
        (c5lp.enable_constant_velocity_while_turning = true ∧
          ∃ r ∈ lataccRangesOf (fun _ => 0) distAbsX c5bp c5lp c5cv
              (setLastTwist c5Input c5Input),
            r.1 ≤ k ∧ k ≤ r.2.1 ∧ (out.getD k dp).vel = r.2.2)) ∧
      (c5lp.enable_constant_velocity_while_turning = true →
        ∀ r ∈ lataccRangesOf (fun _ => 0) distAbsX c5bp c5lp c5cv
            (setLastTwist c5Input c5Input),
          ∀ k, r.1 ≤ k → k ≤ r.2.1 → k < out.length →
            (out.getD k dp).vel = r.2.2) ∧
      (∀ r ∈ lataccRangesOf (fun _ => 0) distAbsX c5bp c5lp c5cv
          (setLastTwist c5Input c5Input),
        (∃ j ∈ (lataccCappedOf (fun _ => 0) c5bp c5cv
            (setLastTwist c5Input c5Input)).2,
          r.1 ≤ j ∧ j ≤ r.2.1 ∧
          ((lataccCappedOf (fun _ => 0) c5bp c5cv
            (setLastTwist c5Input c5Input)).1.getD j dp).vel = r.2.2) ∧
        (∀ j ∈ (lataccCappedOf (fun _ => 0) c5bp c5cv
            (setLastTwist c5Input c5Input)).2,
          r.1 ≤ j → j ≤ r.2.1 →
          r.2.2 ≤ ((lataccCappedOf (fun _ => 0) c5bp c5cv
            (setLastTwist c5Input c5Input)).1.getD j dp).vel)) :=
  applyLateralAccelerationFilter_amended (fun _ => 0) c5interp c5curv distAbsX
    c5bp c5lp c5Input c5Input c5cv (by decide!) rfl rfl
    (fun y hy => ⟨le_refl 0, by simpa using hy⟩) (by decide!)

/-- Claim C10: the guard of `applyMaxVelocity` admits `end_index == size`
(`size < end_index` is false there), after which `points.at(end_index)` throws
`std::out_of_range` (modelled as `none`): on a one-point trajectory with
`start_index = 0 ≤ end_index = 1 = size`, the call neither returns `false`
nor stays within bounds. -/
theorem applyMaxVelocity_end_index_eq_size_throws :
    applyMaxVelocity 5 0 1 [mkPt 0 3 0] = none := by decide

end AnalyticalJerkConstrainedSmoother
